import Mathlib

/-!
Verification development for the TTRPGtools repository: a shallow embedding
of the rulebook-text parsers (`ttrpgtools/parsers.py`), the section
auto-discovery layer (`ttrpgtools/book_import.py`), the character ledger
(`ttrpgtools/models.py`) and character deserialisation
(`ttrpgtools/storage.py`), together with theorems settling the frozen
claims about them.

Python strings are modelled as Lean `String`; the handful of Python string
methods and anchored regular expressions the source uses are embedded as
executable functions below.  Parsers that raise exceptions are modelled in
`Except`: Python's `ParseError`, `ValueError` and `TypeError` become the
constructors of `PyErr`, so that code which catches only `ParseError`
(the per-window probe of auto-discovery) can be embedded faithfully.
-/

namespace TT

/-- Characters stripped by Python `str.strip()` (ASCII whitespace). -/
def pyIsWs (c : Char) : Bool :=
  c == ' ' || c == '\t' || c == '\n' || c == '\r' || c == Char.ofNat 11 || c == Char.ofNat 12

/-- The apostrophe character. -/
def apos : Char := Char.ofNat 39

/-- The em dash character used by the source as a placeholder. -/
def emDash : Char := Char.ofNat 0x2014

/-- The en dash character accepted in roll ranges. -/
def enDash : Char := Char.ofNat 0x2013

/-- Python `str.lstrip()` on a character list. -/
def lstripL (l : List Char) : List Char := l.dropWhile pyIsWs

/-- Python `str.rstrip()` on a character list. -/
def rstripL (l : List Char) : List Char := (l.reverse.dropWhile pyIsWs).reverse

/-- Python `str.strip()`. -/
def pyStrip (s : String) : String := String.mk (lstripL (rstripL s.data))

/-- Python `str.rstrip()`. -/
def pyRstrip (s : String) : String := String.mk (rstripL s.data)

/-- Python `str.lower()` (ASCII). -/
def pyLower (s : String) : String := String.mk (s.data.map Char.toLower)

/-- Python `str.upper()` (ASCII). -/
def pyUpper (s : String) : String := String.mk (s.data.map Char.toUpper)

/-- Python `str.startswith`. -/
def pyStartsWith (s pre : String) : Bool := pre.data.isPrefixOf s.data

/-- Python `str.endswith`. -/
def pyEndsWith (s suf : String) : Bool := suf.data.reverse.isPrefixOf s.data.reverse

/-- Substring test on character lists: does `needle` occur contiguously in
`hay`? -/
def isInfixL (needle : List Char) : List Char → Bool
  | [] => needle.isEmpty
  | c :: rest => needle.isPrefixOf (c :: rest) || isInfixL needle rest

/-- Python `needle in haystack` substring test. -/
def pyContains (hay needle : String) : Bool := isInfixL needle.data hay.data

/-- Membership of a single character in a string. -/
def pyHasChar (s : String) (c : Char) : Bool := s.data.contains c

/-- Worker for `pySplitWs`; `acc` holds the current token reversed. -/
def splitWsAux : List Char → List Char → List String
  | [], acc => if acc.isEmpty then [] else [String.mk acc.reverse]
  | c :: rest, acc =>
    if pyIsWs c then
      if acc.isEmpty then splitWsAux rest []
      else String.mk acc.reverse :: splitWsAux rest []
    else splitWsAux rest (c :: acc)

/-- Python `str.split()` with no argument: split on whitespace runs,
dropping empty tokens. -/
def pySplitWs (s : String) : List String := splitWsAux s.data []

/-- Characters Python `str.splitlines()` treats as line terminators
(besides the `"\r\n"` pair). -/
def isLineBreak (c : Char) : Bool :=
  c == '\n' || c == '\r' || c == Char.ofNat 11 || c == Char.ofNat 12 ||
  c == Char.ofNat 0x1c || c == Char.ofNat 0x1d || c == Char.ofNat 0x1e ||
  c == Char.ofNat 0x85 || c == Char.ofNat 0x2028 || c == Char.ofNat 0x2029

/-- Worker for `pySplitlines`; `acc` holds the current line reversed. -/
def splitlinesAux : List Char → List Char → List String
  | [], acc => if acc.isEmpty then [] else [String.mk acc.reverse]
  | '\r' :: '\n' :: rest, acc => String.mk acc.reverse :: splitlinesAux rest []
  | c :: rest, acc =>
    if isLineBreak c then String.mk acc.reverse :: splitlinesAux rest []
    else splitlinesAux rest (c :: acc)

/-- Python `str.splitlines()`. -/
def pySplitlines (s : String) : List String := splitlinesAux s.data []

/-- Python `str.capitalize()` (ASCII): first character uppercased, the rest
lowercased. -/
def pyCapitalize (s : String) : String :=
  match s.data with
  | [] => ""
  | c :: rest => String.mk (c.toUpper :: rest.map Char.toLower)

/-- Worker for `pyTitle`: `prevCased` tracks whether the previous character
was a letter. -/
def titleAux : List Char → Bool → List Char
  | [], _ => []
  | c :: rest, prevCased =>
    if c.isAlpha then
      (if prevCased then c.toLower else c.toUpper) :: titleAux rest true
    else
      c :: titleAux rest false

/-- Python `str.title()` (ASCII letters). -/
def pyTitle (s : String) : String := String.mk (titleAux s.data false)

/-- Python `str.isupper()`: at least one cased character and every cased
character uppercase (ASCII). -/
def pyIsUpperStr (s : String) : Bool :=
  let cased := s.data.filter Char.isAlpha
  ¬ cased.isEmpty && cased.all Char.isUpper

/-- Python `str.isdigit()` (ASCII digits). -/
def pyIsDigitStr (s : String) : Bool :=
  ¬ s.data.isEmpty && s.data.all Char.isDigit

/-- Python `str.isalpha()` (ASCII letters). -/
def pyIsAlphaStr (s : String) : Bool :=
  ¬ s.data.isEmpty && s.data.all Char.isAlpha

/-- Digit-list to number. -/
def digitsToNat (l : List Char) : Nat :=
  l.foldl (fun n c => 10 * n + (c.toNat - '0'.toNat)) 0

/-- Python `int(s)` restricted to the shapes the source can feed it:
optional surrounding whitespace, an optional sign, then decimal digits.
Returns `none` where Python `int` would raise `ValueError`. -/
def pyInt (s : String) : Option Int :=
  let t := (pyStrip s).data
  match t with
  | '+' :: ds => if ds ≠ [] ∧ ds.all Char.isDigit then some (digitsToNat ds) else none
  | '-' :: ds => if ds ≠ [] ∧ ds.all Char.isDigit then some (-(digitsToNat ds : Int)) else none
  | ds => if ds ≠ [] ∧ ds.all Char.isDigit then some (digitsToNat ds) else none

/-- Remove every occurrence of a character (Python `str.replace(c, "")`). -/
def pyRemoveChar (s : String) (c : Char) : String :=
  String.mk (s.data.filter (fun d => d ≠ c))

/-- Python `str.rstrip(chars)`: drop trailing characters from `chars`. -/
def pyRstripChars (s : String) (chars : List Char) : String :=
  String.mk ((s.data.reverse.dropWhile (fun c => chars.contains c)).reverse)

/-- Python `str.strip(chars)`: drop leading and trailing characters from
`chars`. -/
def pyStripChars (s : String) (chars : List Char) : String :=
  String.mk (((s.data.dropWhile (fun c => chars.contains c)).reverse.dropWhile
    (fun c => chars.contains c)).reverse)

/-- Split on every occurrence of one of `seps` (Python
`re.split` with a single-character alternation: no run merging). -/
def splitAnyL (seps : List Char) : List Char → List Char → List String
  | [], acc => [String.mk acc.reverse]
  | c :: rest, acc =>
    if seps.contains c then String.mk acc.reverse :: splitAnyL seps rest []
    else splitAnyL seps rest (c :: acc)

/-- Python `re.split(r",|;", s)`. -/
def pySplitCommaSemi (s : String) : List String := splitAnyL [',', ';'] s.data []

/-- Python `s.split(sep, 1)` for a single-character separator: returns the
parts before and after the first occurrence, or `none` when absent. -/
def pySplitOnce (s : String) (sep : Char) : Option (String × String) :=
  let before := s.data.takeWhile (fun c => c ≠ sep)
  let rest := s.data.dropWhile (fun c => c ≠ sep)
  match rest with
  | [] => none
  | _ :: after => some (String.mk before, String.mk after)

/-! ## Error model

`ParseError` subclasses `ValueError` in the source; per-window recovery in
auto-discovery catches only `ParseError`, so the three exception kinds that
can escape the parsers are kept distinct. -/

/-- Python exceptions observable at the parsing layer. -/
inductive PyErr where
  | parseError (msg : String)
  | valueError (msg : String)
  | typeError (msg : String)
deriving Repr, DecidableEq

/-- Is the result a `ParseError`? -/
def isParseError {α : Type} : Except PyErr α → Bool
  | .error (.parseError _) => true
  | _ => false

/-! ## Entry types (`ttrpgtools/parsers.py` dataclasses) -/

/-- `TalentEntry` from `parsers.py`. -/
structure TalentEntry where
  name : String
  prerequisites : List String
  description : String
  page : Option Int := none
  source : Option String := none
deriving Repr, DecidableEq

/-- `AdvanceEntry` from `parsers.py`. -/
structure AdvanceEntry where
  name : String
  cost : Int
  advance_type : String
  prerequisites : List String
  page : Option Int := none
  source : Option String := none
deriving Repr, DecidableEq

/-- `CharacteristicAdvanceEntry` from `parsers.py`. -/
structure CharacteristicAdvanceEntry where
  characteristic : String
  tier : String
  cost : Int
  page : Option Int := none
  source : Option String := none
deriving Repr, DecidableEq

/-- `DivinationResultEntry` from `parsers.py`. -/
structure DivinationResultEntry where
  roll_min : Int
  roll_max : Int
  quote : String
  effect : String
  page : Option Int := none
  source : Option String := none
deriving Repr, DecidableEq

/-- `PsychicPowerEntry` from `parsers.py`. -/
structure PsychicPowerEntry where
  name : String
  threshold : Int
  focus_time : String
  sustain : String
  range : String
  description : String
  page : Option Int := none
  source : Option String := none
deriving Repr, DecidableEq

/-! ## `_normalise_name` -/

/-- Index of the first ASCII letter in a list, if any. -/
def firstAlphaIdx (l : List Char) : Option Nat :=
  l.findIdx? Char.isAlpha

/-- Index of the last apostrophe in a list, if any. -/
def lastAposIdx (l : List Char) : Option Nat :=
  match l.reverse.findIdx? (fun c => c = apos) with
  | none => none
  | some k => some (l.length - 1 - k)

/-- The regex step of `_normalise_name`:
`re.match(r"^([^A-Za-z]*)([A-Za-z\']+)(.*)$", cleaned)` with greedy
backtracking, then `lead + letters.capitalize() + trail`; on no match,
`cleaned.capitalize()`. -/
def normaliseToken (cleaned : String) : String :=
  let d := cleaned.data
  match firstAlphaIdx d with
  | some p =>
    let lead := d.take p
    let letters := (d.drop p).takeWhile (fun c => c.isAlpha || c = apos)
    let trail := (d.drop p).dropWhile (fun c => c.isAlpha || c = apos)
    String.mk lead ++ pyCapitalize (String.mk letters) ++ String.mk trail
  | none =>
    match lastAposIdx d with
    | some q =>
      let lead := d.take q
      let letters := (d.drop q).takeWhile (fun c => c = apos)
      let trail := (d.drop q).dropWhile (fun c => c = apos)
      String.mk lead ++ pyCapitalize (String.mk letters) ++ String.mk trail
    | none => pyCapitalize cleaned

/-- `_normalise_name` from `parsers.py`: join the stripped non-blank lines,
split into tokens, and normalise each token, preserving short all-caps
tokens. -/
def normaliseName (nameLines : List String) : String :=
  let raw := String.intercalate " "
    ((nameLines.map pyStrip).filter (fun l => l ≠ ""))
  let tokens := pySplitWs raw
  let normalised := tokens.filterMap (fun token =>
    let cleaned := pyStrip token
    if cleaned = "" then none
    else if pyIsUpperStr cleaned ∧ cleaned.data.length ≤ 3 then some cleaned
    else some (normaliseToken cleaned))
  String.intercalate " " normalised

/-! ## `_score_talent_split` and `_split_talent_row`

The Python scorer works in floats whose addends are all multiples of 0.1
(`0.3`, `0.5`, `1`, `1.5`, `2`, `3`); the embedding computes the same score
scaled by 10 in exact integers, so `3` stands for `0.3`, `15` for `1.5`,
and so on.  Comparisons between candidate splits therefore agree with the
source whenever the true maximum is unique, which each concrete theorem
below checks by computation. -/

/-- Words penalised as the trailing token of a talent name. -/
def trainingSuffixWords : List String :=
  ["basic", "weapon", "pistol", "sound", "thrown", "drive", "training"]

/-- Keyword list rewarded inside prerequisite text. -/
def prereqKeywords : List String :=
  ["training", "talent", "weapon", "skill", "bonus", "frenzy", "prerequisite",
   "acrobatic", "willpower", "agility", "perception", "strength", "fellowship",
   "initiative", "basic", "pistol", "thrown", "drive", "sound", "constitution",
   "fel", "wp", "bs", "ws", "per", "int", "toughness"]

/-- Benefit opening words rewarded by the scorer. -/
def benefitStartWords : List String :=
  ["affect", "use", "on", "you", "heal", "gain", "re-roll", "reroll", "suffer",
   "remove", "reduce", "parry", "such", "whenever", "despite", "whenever",
   "burn!", "targets", "through", "whereas", "when"]

/-- Is the first character of the first token an uppercase letter? -/
def headHeadIsUpper (toks : List String) : Bool :=
  match toks with
  | [] => false
  | t :: _ =>
    match t.data with
    | [] => false
    | c :: _ => c.isUpper

/-- The last token of a list (empty string when the list is empty). -/
def lastTok (toks : List String) : String :=
  match toks.reverse with
  | [] => ""
  | t :: _ => t

/-- The first token of a list (empty string when the list is empty). -/
def headTok (toks : List String) : String :=
  match toks with
  | [] => ""
  | t :: _ => t

/-- `_score_talent_split` from `parsers.py`, score scaled by 10 (`none`
models the `float("-inf")` returned for an empty group). -/
def scoreTalentSplit (nameToks prereqToks benefitToks : List String) : Option Int :=
  if nameToks.isEmpty || prereqToks.isEmpty || benefitToks.isEmpty then none
  else
    let sName : Int :=
      (if nameToks.any (fun t => pyIsDigitStr t) then -30 else 0)
      + (if nameToks.length > 5 then -10 else 0)
      + (if headHeadIsUpper nameToks then 10 else 0)
      + 3 * (min nameToks.length 4 : Int)
      + (if trainingSuffixWords.contains (pyLower (lastTok nameToks)) then -15 else 0)
    let prereqText := String.intercalate " " prereqToks
    let loweredPrereq := pyLower prereqText
    let sPrereq : Int :=
      (if prereqText.data.any Char.isDigit then 20 else 0)
      + (if pyHasChar prereqText emDash || pyHasChar prereqText '-' then 10 else 0)
      + (if pyStrip prereqText = String.mk [emDash] then 30 else 0)
      + (if prereqKeywords.any (fun k => pyContains loweredPrereq k) then 15 else 0)
      + (if pyHasChar prereqText '(' && pyHasChar prereqText ')' then 5 else 0)
      + (if prereqToks.length > 8 then -10 else 0)
      + (if prereqToks.length = 1 ∧ pyIsDigitStr (lastTok prereqToks) then -20 else 0)
      + (if prereqToks.length = 1 ∧ lastTok prereqToks ≠ String.mk [emDash] then -10 else 0)
    let benefitText := String.intercalate " " benefitToks
    let startWord := pyLower (pyStripChars (headTok benefitToks)
      ['"', Char.ofNat 0x201c, Char.ofNat 0x201d])
    let sBenefit : Int :=
      (if pyEndsWith benefitText "." then 15 else 0)
      + (if benefitStartWords.contains startWord then 10 else 0)
      + (if benefitText.data.any Char.isDigit then 5 else 0)
      + (if pyStartsWith (headTok benefitToks) "(" then -20 else 0)
    some (sName + sPrereq + sBenefit)

/-- `_tokenize_table_row`: split a row into whitespace tokens, raising on an
empty row. -/
def tokenizeTableRow (row : String) : Except PyErr (List String) :=
  let tokens := pySplitWs (pyStrip row)
  if tokens.isEmpty then .error (.parseError "Encountered an empty table row.")
  else .ok tokens

/-- The `(i, j)` cut points tried by `_split_talent_row`, in loop order:
`i` in `range(1, n-1)`, `j` in `range(i+1, n)`. -/
def splitCandidatePairs (n : Nat) : List (Nat × Nat) :=
  (List.range' 1 (n - 2)).flatMap (fun i =>
    (List.range' (i + 1) (n - 1 - i)).map (fun j => (i, j)))

/-- One step of the best-split fold: keep the new candidate only when its
score strictly beats the best so far (ties keep the earlier candidate, as
in the source). -/
def betterSplit (tokens : List String)
    (best : Option (Int × String × String × String)) (ij : Nat × Nat) :
    Option (Int × String × String × String) :=
  let nameToks := tokens.take ij.1
  let prereqToks := (tokens.drop ij.1).take (ij.2 - ij.1)
  let benefitToks := tokens.drop ij.2
  match scoreTalentSplit nameToks prereqToks benefitToks with
  | none => best
  | some sc =>
    match best with
    | none => some (sc, String.intercalate " " nameToks,
        String.intercalate " " prereqToks, String.intercalate " " benefitToks)
    | some (b, _, _, _) =>
      if sc > b then
        some (sc, String.intercalate " " nameToks,
          String.intercalate " " prereqToks, String.intercalate " " benefitToks)
      else best

/-- `_split_talent_row` from `parsers.py`: exhaustive scored search over
three-way cuts, followed by the independent prerequisite sanity check. -/
def splitTalentRow (row : String) : Except PyErr (String × String × String) := do
  let tokens ← tokenizeTableRow row
  let best := (splitCandidatePairs tokens.length).foldl (betterSplit tokens) none
  match best with
  | none => .error (.parseError "Could not parse talent table row.")
  | some (bestScore, name, prereqText, benefit) =>
    if bestScore < 0 then .error (.parseError "Could not parse talent table row.")
    else
      let loweredPrereq := pyLower prereqText
      if ¬ (prereqText.data.any Char.isDigit
            || pyHasChar prereqText emDash
            || pyContains loweredPrereq "talent"
            || pyContains loweredPrereq "training"
            || pyContains loweredPrereq "skill") then
        .error (.parseError "Unable to identify prerequisites in row.")
      else .ok (name, prereqText, benefit)

/-! ## `parse_talent_table` -/

/-- `re.match(r"talent\s+name", lowered)`: anchored prefix match. -/
def matchTalentHeader (lowered : String) : Bool :=
  let d := lowered.data
  if "talent".data.isPrefixOf d then
    let rest := d.drop 6
    let ws := rest.takeWhile pyIsWs
    ¬ ws.isEmpty && "name".data.isPrefixOf (rest.dropWhile pyIsWs)
  else false

/-- Split prerequisite text on commas and semicolons, dropping blanks and
em-dash placeholders and trimming trailing periods (the list comprehension
shared by the table parsers). -/
def splitPrereqList (prereqText : String) : List String :=
  (pySplitCommaSemi prereqText).filterMap (fun item =>
    let s := pyStrip item
    if s ≠ "" ∧ s ≠ String.mk [emDash] then some (pyRstripChars s ['.'])
    else none)

/-- Loop state of `parse_talent_table`. -/
structure TTState where
  headerFound : Bool
  buffer : List String
  entries : List TalentEntry
  stopped : Bool
deriving Repr, DecidableEq

/-- The buffered-row step of the `parse_talent_table` loop: append the line
to the row buffer and retry the split on the concatenation. -/
def talentTableRowStep (page : Option Int) (source : Option String)
    (st : TTState) (line : String) : TTState :=
  match splitTalentRow (String.intercalate " " (st.buffer ++ [line])) with
  | .error _ => { st with buffer := st.buffer ++ [line] }
  | .ok (name, prereqText, benefit) =>
    { st with
      buffer := []
      entries := st.entries ++ [{
        name := normaliseName [name]
        prerequisites := splitPrereqList prereqText
        description := pyStrip benefit
        page := page
        source := source }] }

/-- One iteration of the `parse_talent_table` line loop. -/
def talentTableStep (page : Option Int) (source : Option String)
    (st : TTState) (line : String) : TTState :=
  if st.stopped then st
  else if pyStartsWith (pyLower line) "table" then st
  else if ¬ st.headerFound ∧ matchTalentHeader (pyLower line) then
    { st with headerFound := true }
  else if pyStartsWith line "---" then
    { st with headerFound := true, stopped := true }
  else talentTableRowStep page source { st with headerFound := true } line

/-- The non-blank, right-stripped lines a table parser iterates over. -/
def tableLines (text : String) : List String :=
  (pySplitlines text).filterMap (fun l =>
    if pyStrip l ≠ "" then some (pyRstrip l) else none)

/-- Final fold state of `parse_talent_table` on an input text. -/
def talentTableState (text : String) (page : Option Int) (source : Option String) :
    TTState :=
  (tableLines text).foldl (talentTableStep page source)
    { headerFound := false, buffer := [], entries := [], stopped := false }

/-- `parse_talent_table` from `parsers.py`. -/
def parseTalentTable (text : String) (page : Option Int := none)
    (source : Option String := none) : Except PyErr (List TalentEntry) :=
  if ¬ (talentTableState text page source).buffer.isEmpty then
    .error (.parseError "Unparsed content remaining in talent table.")
  else if ¬ (talentTableState text page source).headerFound ∨
      (talentTableState text page source).entries.isEmpty then
    .error (.parseError "No talent entries were parsed from the provided text.")
  else .ok (talentTableState text page source).entries

/-! ## Lemmas about `parse_talent_table` -/

/-- A step of the talent-table loop that leaves `headerFound` false leaves
the whole state unchanged: only lines skipped by the `"table"` prefix test
(or ignored after a stop) fail to set it. -/
theorem talentTableStep_fix_or_header {page : Option Int} {source : Option String}
    (st : TTState) (line : String) :
    talentTableStep page source st line = st ∨
    (talentTableStep page source st line).headerFound = true := by
  unfold talentTableStep
  split_ifs <;>
    first
      | exact Or.inl rfl
      | exact Or.inr rfl
      | (unfold talentTableRowStep; split <;> exact Or.inr rfl)

theorem talentTableStep_header_false {page : Option Int} {source : Option String}
    {st : TTState} {line : String}
    (h : (talentTableStep page source st line).headerFound = false) :
    talentTableStep page source st line = st := by
  rcases @talentTableStep_fix_or_header page source st line with h2 | h2
  · exact h2
  · rw [h2] at h; exact absurd h (by simp)

/-- Folding the talent-table step with `headerFound` still false at the end
means no line changed the state at all. -/
theorem talentTableFold_header_false {page : Option Int} {source : Option String} :
    ∀ (lines : List String) (st : TTState),
    (lines.foldl (talentTableStep page source) st).headerFound = false →
    lines.foldl (talentTableStep page source) st = st := by
  intro lines
  induction lines with
  | nil => intro st h; rfl
  | cons l rest ih =>
    intro st h
    simp only [List.foldl_cons] at h ⊢
    have h2 := ih (talentTableStep page source st l) h
    rw [h2] at h ⊢
    exact talentTableStep_header_false h

/-- If the final state of `parse_talent_table` has `headerFound = false`
then it produced no entries (and buffered nothing). -/
theorem talentTableState_header_false {text : String} {page : Option Int}
    {source : Option String}
    (h : (talentTableState text page source).headerFound = false) :
    (talentTableState text page source).entries = [] ∧
    (talentTableState text page source).buffer = [] := by
  unfold talentTableState at *
  rw [talentTableFold_header_false _ _ h]
  exact ⟨rfl, rfl⟩

/-! ## `parse_divination_table` -/

/-- Anchored full match of `_RANGE_PATTERN`,
`^(?P<start>\d{1,2})(?:[–-](?P<end>\d{1,2}))?$`: returns the start digits
and the optional end digits. -/
def rangeTokenVals (d : List Char) : Option (Nat × Option Nat) :=
  let ds := d.takeWhile Char.isDigit
  let rest := d.dropWhile Char.isDigit
  if ds.length = 0 ∨ ds.length > 2 then none
  else
    match rest with
    | [] => some (digitsToNat ds, none)
    | c :: rest2 =>
      if c = enDash ∨ c = '-' then
        let ds2 := rest2.takeWhile Char.isDigit
        let rest3 := rest2.dropWhile Char.isDigit
        if (ds2.length = 1 ∨ ds2.length = 2) ∧ rest3 = [] then
          some (digitsToNat ds, some (digitsToNat ds2))
        else none
      else none

/-- `_parse_roll_range` from `parsers.py`. -/
def parseRollRange (token : String) : Except PyErr (Int × Int) :=
  match rangeTokenVals token.data with
  | none => .error (.parseError "Invalid roll range token.")
  | some (a, some b) => .ok ((a : Int), (b : Int))
  | some (a, none) => .ok ((a : Int), (a : Int))

/-- The `\s+(?P<text>.+)$` tail of the divination row regex: at least one
whitespace character followed by a non-empty remainder (with the regex
engine's backtracking when the remainder would be empty). -/
def wsThenText (rest : List Char) : Option (List Char) :=
  let ws := rest.takeWhile pyIsWs
  let tail := rest.dropWhile pyIsWs
  if ws.isEmpty then none
  else if ¬ tail.isEmpty then some tail
  else if ws.length ≥ 2 then some (ws.drop (ws.length - 1))
  else none

/-- `re.match(r"^(?P<range>\d{1,2}(?:[–-]\d{1,2})?)\s+(?P<text>.+)$", line)`:
returns the roll-range token and the trailing text.  The digit groups are
greedy with backtracking, but a digit run longer than two characters can
never be followed by a dash or whitespace, so the run-length check below is
equivalent. -/
def matchDivRow (d : List Char) : Option (String × String) :=
  let ds := d.takeWhile Char.isDigit
  let rest := d.dropWhile Char.isDigit
  if ds.length = 0 ∨ ds.length > 2 then none
  else
    match rest with
    | c :: rest2 =>
      if c = enDash ∨ c = '-' then
        let ds2 := rest2.takeWhile Char.isDigit
        let rest3 := rest2.dropWhile Char.isDigit
        if ds2.length = 1 ∨ ds2.length = 2 then
          match wsThenText rest3 with
          | some tail => some (String.mk (ds ++ [c] ++ ds2), String.mk tail)
          | none =>
            match wsThenText rest with
            | some tail => some (String.mk ds, String.mk tail)
            | none => none
        else
          match wsThenText rest with
          | some tail => some (String.mk ds, String.mk tail)
          | none => none
      else
        match wsThenText rest with
        | some tail => some (String.mk ds, String.mk tail)
        | none => none
    | [] => none

/-- Is a character an opening quote (`"` or a left curly double quote)? -/
def isOpenQuote (c : Char) : Bool := c == '"' || c == Char.ofNat 0x201c

/-- Is a character a closing quote (`"` or a right curly double quote)? -/
def isCloseQuote (c : Char) : Bool := c == '"' || c == Char.ofNat 0x201d

/-- First index `j ≥ 1` of a closing quote in a list, if any. -/
def closeQuoteIdx (l : List Char) : Option Nat :=
  match (l.drop 1).findIdx? isCloseQuote with
  | none => none
  | some k => some (k + 1)

/-- `re.search(r"[\"“](.+?)[\"”]", text)`: the first position where an
opening quote is followed (at distance at least two) by a closing quote
wins; the lazy group ends at the nearest closing quote.  Returns
`(start, end, group)` with `end` exclusive of nothing (it is Python's
`match.end()`, one past the closing quote). -/
def findQuoteSpan : List Char → Nat → Option (Nat × Nat × List Char)
  | [], _ => none
  | c :: rest, i =>
    if isOpenQuote c then
      match closeQuoteIdx rest with
      | some j => some (i, i + j + 2, rest.take j)
      | none => findQuoteSpan rest (i + 1)
    else findQuoteSpan rest (i + 1)

/-- `_build_divination_entry` from `parsers.py`. -/
def buildDivinationEntry (roll : Int × Int) (text : String)
    (page : Option Int) (source : Option String) : DivinationResultEntry :=
  let d := text.data
  let quoteEffect : String × String :=
    match findQuoteSpan d 0 with
    | some (s, e, grp) =>
      (String.mk grp,
       pyStrip (pyStrip (String.mk (d.take s)) ++ pyStrip (String.mk (d.drop e))))
    | none => (text, "")
  let quoteEffect2 : String × String :=
    if quoteEffect.2 = "" then
      match pySplitOnce text '.' with
      | some (before, after) =>
        (pyStripChars before ['"', Char.ofNat 0x201c, Char.ofNat 0x201d, ' '],
         pyStrip after)
      | none => (quoteEffect.1, pyStrip text)
    else quoteEffect
  { roll_min := roll.1
    roll_max := roll.2
    quote := pyStrip quoteEffect2.1
    effect := pyStrip quoteEffect2.2
    page := page
    source := source }

/-- Loop state of `parse_divination_table`. -/
structure DivState where
  headerSeen : Bool
  currentRoll : Option (Int × Int)
  parts : List String
  entries : List DivinationResultEntry
deriving Repr, DecidableEq

/-- Flush the pending roll (if any) into the entry list, as
`parse_divination_table` does both on seeing a new roll token and at the
end of the text. -/
def divFlush (page : Option Int) (source : Option String) (st : DivState) :
    List DivinationResultEntry :=
  match st.currentRoll with
  | some r0 => st.entries ++
      [buildDivinationEntry r0 (String.intercalate " " st.parts) page source]
  | none => st.entries

/-- One iteration of the `parse_divination_table` line loop. -/
def divinationStep (page : Option Int) (source : Option String)
    (st : DivState) (rawLine : String) : Except PyErr DivState :=
  if pyStrip rawLine = "" then .ok st
  else if pyStartsWith (pyLower (pyStrip rawLine)) "table" then
    .ok { st with headerSeen := true }
  else if ¬ st.headerSeen then .ok st
  else if pyStartsWith (pyLower (pyStrip rawLine)) "roll" then .ok st
  else
    match matchDivRow (pyStrip rawLine).data with
    | some (tok, text) =>
      match parseRollRange tok with
      | .error e => .error e
      | .ok r =>
        .ok { st with
          currentRoll := some r
          parts := [pyStrip text]
          entries := divFlush page source st }
    | none =>
      match st.currentRoll with
      | none => .error (.parseError "Unexpected line in divination table.")
      | some _ => .ok { st with parts := st.parts ++ [pyStrip rawLine] }

/-- The right-stripped lines `parse_divination_table` iterates over. -/
def divLines (text : String) : List String := (pySplitlines text).map pyRstrip

/-- `parse_divination_table` from `parsers.py`. -/
def parseDivinationTable (text : String) (page : Option Int := none)
    (source : Option String := none) : Except PyErr (List DivinationResultEntry) :=
  match (divLines text).foldlM (divinationStep page source)
      { headerSeen := false, currentRoll := none, parts := [], entries := [] } with
  | .error e => .error e
  | .ok st =>
    if (divFlush page source st).isEmpty then
      .error (.parseError "No divination entries were parsed from the provided text.")
    else .ok (divFlush page source st)

/-- A line is range-sane when, if it matches the divination row pattern,
its roll-range token parses to a non-descending pair. -/
def rowRangeSane (rawLine : String) : Bool :=
  match matchDivRow (pyStrip rawLine).data with
  | some (tok, _) =>
    match parseRollRange tok with
    | .ok r => decide (r.1 ≤ r.2)
    | .error _ => true
  | none => true

/-- Invariant of the divination loop: every finished entry and the pending
roll satisfy `roll_min ≤ roll_max`. -/
def divOk (st : DivState) : Prop :=
  (∀ e ∈ st.entries, e.roll_min ≤ e.roll_max) ∧
  (∀ r, st.currentRoll = some r → r.1 ≤ r.2)

theorem buildDivinationEntry_roll (r : Int × Int) (text : String)
    (page : Option Int) (source : Option String) :
    (buildDivinationEntry r text page source).roll_min = r.1 ∧
    (buildDivinationEntry r text page source).roll_max = r.2 :=
  ⟨rfl, rfl⟩

theorem divFlush_ok {page : Option Int} {source : Option String}
    {st : DivState} (hi : divOk st) :
    ∀ e ∈ divFlush page source st, e.roll_min ≤ e.roll_max := by
  intro e he
  unfold divFlush at he
  split at he
  next r0 heq0 =>
    rcases List.mem_append.mp he with h1 | h1
    · exact hi.1 e h1
    · rcases List.mem_singleton.mp h1 with rfl
      rw [(buildDivinationEntry_roll r0 _ page source).1,
        (buildDivinationEntry_roll r0 _ page source).2]
      exact hi.2 r0 heq0
  next => exact hi.1 e he

theorem divinationStep_ok {page : Option Int} {source : Option String}
    {st st' : DivState} {l : String}
    (h : divinationStep page source st l = .ok st')
    (hs : rowRangeSane l = true) (hi : divOk st) : divOk st' := by
  unfold divinationStep at h
  split at h
  · injection h with h; subst h; exact hi
  · split at h
    · injection h with h; subst h; exact ⟨hi.1, hi.2⟩
    · split at h
      · injection h with h; subst h; exact hi
      · split at h
        · injection h with h; subst h; exact hi
        · unfold rowRangeSane at hs
          split at h
          next tok text heq =>
            rw [heq] at hs
            have hs2 : (match parseRollRange tok with
                | .ok r => decide (r.1 ≤ r.2)
                | .error _ => true) = true := hs
            split at h
            · exact Except.noConfusion h
            next r heq2 =>
              rw [heq2] at hs2
              injection h with h; subst h
              refine ⟨?_, ?_⟩
              · intro e he
                exact divFlush_ok hi e he
              · intro r2 hr2
                simp only [Option.some.injEq] at hr2
                subst hr2
                exact of_decide_eq_true hs2
          next heq =>
            split at h
            · exact Except.noConfusion h
            next r0 heq0 =>
              injection h with h; subst h
              exact ⟨hi.1, fun r hr => hi.2 r (heq0 ▸ hr)⟩

theorem divinationFold_ok {page : Option Int} {source : Option String} :
    ∀ (lines : List String) (st st' : DivState),
    (∀ l ∈ lines, rowRangeSane l = true) → divOk st →
    lines.foldlM (divinationStep page source) st = .ok st' → divOk st' := by
  intro lines
  induction lines with
  | nil =>
    intro st st' _ hi h
    injection h with h; subst h; exact hi
  | cons l rest ih =>
    intro st st' hs hi h
    rw [List.foldlM_cons] at h
    cases hstep : divinationStep page source st l with
    | error e => rw [hstep] at h; exact Except.noConfusion h
    | ok st1 =>
      rw [hstep] at h
      have h1 : rest.foldlM (divinationStep page source) st1 = .ok st' := h
      exact ih st1 st' (fun x hx => hs x (List.mem_cons_of_mem l hx))
        (divinationStep_ok hstep (hs l (List.mem_cons_self l rest)) hi) h1

/-! ## `parse_characteristic_advances_table` -/

/-- Loop state of `parse_characteristic_advances_table`. -/
structure CAState where
  tiers : Option (List String)
  entries : List CharacteristicAdvanceEntry
deriving Repr, DecidableEq

/-- `int(tok.replace(",", ""))` applied to each cost token; `none` models
the `ValueError` Python raises on the first non-numeric token. -/
def costsInts : List String → Option (List Int)
  | [] => some []
  | t :: rest =>
    match pyInt (pyRemoveChar t ','), costsInts rest with
    | some v, some vs => some (v :: vs)
    | _, _ => none

/-- The entries one data row contributes: one per declared tier, with the
trailing cost tokens matched positionally. -/
def charAdvRowEntries (name : String) (tiers : List String) (costs : List Int)
    (page : Option Int) (source : Option String) : List CharacteristicAdvanceEntry :=
  (tiers.zip costs).map (fun tc =>
    { characteristic := name
      tier := normaliseName [tc.1]
      cost := tc.2
      page := page
      source := source })

/-- One iteration of the `parse_characteristic_advances_table` line loop. -/
def charAdvStep (page : Option Int) (source : Option String)
    (st : CAState) (line : String) : Except PyErr CAState :=
  if pyStartsWith (pyLower line) "table" || pyStartsWith (pyLower line) "characteristic" then
    if (pySplitWs line).contains "Characteristic" then
      .ok { st with tiers := some ((pySplitWs line).drop 1) }
    else .ok st
  else
    match st.tiers with
    | none => .error (.parseError "Characteristic tiers header not found before data rows.")
    | some tiers =>
      if (pySplitWs line).length < tiers.length + 1 then
        .error (.parseError "Characteristic row is too short.")
      else
        match costsInts ((pySplitWs line).drop ((pySplitWs line).length - tiers.length)) with
        | none => .error (.valueError "invalid literal for int() with base 10")
        | some costs =>
          .ok { st with entries := st.entries ++
            (charAdvRowEntries
              (normaliseName [String.intercalate " "
                ((pySplitWs line).take ((pySplitWs line).length - tiers.length))])
              tiers costs page source) }

/-- `parse_characteristic_advances_table` from `parsers.py`. -/
def parseCharacteristicAdvancesTable (text : String) (page : Option Int := none)
    (source : Option String := none) : Except PyErr (List CharacteristicAdvanceEntry) :=
  match (tableLines text).foldlM (charAdvStep page source) { tiers := none, entries := [] } with
  | .error e => .error e
  | .ok st =>
    if st.entries.isEmpty then
      .error (.parseError "No characteristic advances found in the table.")
    else .ok st.entries

theorem costsInts_length : ∀ {toks : List String} {cs : List Int},
    costsInts toks = some cs → cs.length = toks.length := by
  intro toks
  induction toks with
  | nil =>
    intro cs h
    simp [costsInts] at h
    subst h
    rfl
  | cons t rest ih =>
    intro cs h
    unfold costsInts at h
    cases hft : pyInt (pyRemoveChar t ',') with
    | none => rw [hft] at h; simp at h
    | some v =>
      rw [hft] at h
      cases hrest : costsInts rest with
      | none => rw [hrest] at h; simp at h
      | some vs =>
        rw [hrest] at h
        simp at h
        subst h
        simp [ih hrest]

/-- C9: for a characteristic-advances table consisting of a header line
declaring `Characteristic <tier1> ... <tierN>` and one data row whose
trailing `N` tokens are the costs, the parser emits exactly one entry per
declared tier, in header order, with the costs matched positionally. -/
theorem claim_C9_one_entry_per_tier
    (text headerLine rowLine : String) (tiers nameToks costToks : List String)
    (costs : List Int) (page : Option Int) (source : Option String)
    (hLines : tableLines text = [headerLine, rowLine])
    (hHdr : pyStartsWith (pyLower headerLine) "characteristic" = true)
    (hHdrToks : pySplitWs headerLine = "Characteristic" :: tiers)
    (hTiers : tiers ≠ [])
    (hRow1 : pyStartsWith (pyLower rowLine) "table" = false)
    (hRow2 : pyStartsWith (pyLower rowLine) "characteristic" = false)
    (hRowToks : pySplitWs rowLine = nameToks ++ costToks)
    (hName : nameToks ≠ [])
    (hLen : costToks.length = tiers.length)
    (hCosts : costsInts costToks = some costs) :
    parseCharacteristicAdvancesTable text page source =
      .ok (charAdvRowEntries (normaliseName [String.intercalate " " nameToks])
        tiers costs page source) := by
  have hstep1 : charAdvStep page source { tiers := none, entries := [] } headerLine =
      .ok { tiers := some tiers, entries := [] } := by
    unfold charAdvStep
    rw [hHdr]
    simp [hHdrToks]
  have harith : (pySplitWs rowLine).length - tiers.length = nameToks.length := by
    rw [hRowToks]
    simp [List.length_append, hLen]
  have hlenrow : ¬ ((pySplitWs rowLine).length < tiers.length + 1) := by
    rw [hRowToks]
    have h1 : 1 ≤ nameToks.length := List.length_pos.mpr hName
    simp only [List.length_append, hLen]
    omega
  have hstep2 : charAdvStep page source { tiers := some tiers, entries := [] } rowLine =
      .ok { tiers := some tiers,
            entries := charAdvRowEntries
              (normaliseName [String.intercalate " " nameToks]) tiers costs page source } := by
    unfold charAdvStep
    rw [hRow1, hRow2]
    simp only [Bool.or_self, Bool.false_eq_true, if_false]
    rw [if_neg hlenrow, harith, hRowToks, List.drop_left, List.take_left, hCosts]
    simp
  have hfold : (tableLines text).foldlM (charAdvStep page source)
      { tiers := none, entries := [] } =
      .ok { tiers := some tiers,
            entries := charAdvRowEntries
              (normaliseName [String.intercalate " " nameToks]) tiers costs page source } := by
    rw [hLines, List.foldlM_cons, hstep1]
    show [rowLine].foldlM (charAdvStep page source) { tiers := some tiers, entries := [] } = _
    rw [List.foldlM_cons, hstep2]
    rfl
  have hne : (charAdvRowEntries (normaliseName [String.intercalate " " nameToks])
      tiers costs page source).isEmpty = false := by
    have hc : costs.length = tiers.length := by
      rw [costsInts_length hCosts, hLen]
    have h1 : 1 ≤ tiers.length := List.length_pos.mpr hTiers
    unfold charAdvRowEntries
    rw [List.isEmpty_eq_false_iff_exists_mem]
    have hz : (tiers.zip costs).length = tiers.length := by
      rw [List.length_zip, hc, Nat.min_self]
    have hzne : tiers.zip costs ≠ [] := by
      intro hcon
      rw [hcon] at hz
      simp at hz
      omega
    rcases List.exists_mem_of_ne_nil _ hzne with ⟨x, hx⟩
    exact ⟨_, List.mem_map_of_mem _ hx⟩
  unfold parseCharacteristicAdvancesTable
  rw [hfold]
  simp [hne]

/-- C9 witness: the concrete header
`"Characteristic Simple Intermediate Trained Expert"` with the data row
`"Weapon Skill 100 250 500 750"` yields exactly four entries pairing the
tiers with the costs positionally. -/
theorem claim_C9_one_entry_per_tier_witness :
    parseCharacteristicAdvancesTable
      "Characteristic Simple Intermediate Trained Expert\nWeapon Skill 100 250 500 750"
      none none =
      .ok [⟨"Weapon Skill", "Simple", 100, none, none⟩,
           ⟨"Weapon Skill", "Intermediate", 250, none, none⟩,
           ⟨"Weapon Skill", "Trained", 500, none, none⟩,
           ⟨"Weapon Skill", "Expert", 750, none, none⟩] := by
  have h := claim_C9_one_entry_per_tier
    "Characteristic Simple Intermediate Trained Expert\nWeapon Skill 100 250 500 750"
    "Characteristic Simple Intermediate Trained Expert"
    "Weapon Skill 100 250 500 750"
    ["Simple", "Intermediate", "Trained", "Expert"]
    ["Weapon", "Skill"] ["100", "250", "500", "750"]
    [100, 250, 500, 750] none none
    (by decide) (by decide) (by decide) (by decide) (by decide) (by decide)
    (by decide) (by decide) (by decide) (by decide)
  exact h

/-! ## `parse_psychic_powers`

The metadata dictionary is modelled as an association list with Python
`dict` semantics: assigning to an existing key overwrites its value in
place, otherwise the pair is appended. -/

/-- Python `fields[key] = value`. -/
def setKey (m : List (String × String)) (k v : String) : List (String × String) :=
  if m.any (fun kv => kv.1 = k) then
    m.map (fun kv => if kv.1 = k then (k, v) else kv)
  else m ++ [(k, v)]

/-- Python `fields.get(key)`. -/
def getKey (m : List (String × String)) (k : String) : Option String :=
  (m.find? (fun kv => kv.1 = k)).map (fun kv => kv.2)

/-- The metadata keys recognised by `parse_psychic_powers`. -/
def psychicKeys : List String := ["threshold", "focus time", "sustain", "range"]

/-- The name-gathering loop shared by the prose parsers: skip blank lines,
collect consecutive all-caps lines (stripped), stop at the first non-blank
line that is not all-caps. -/
def collectUppers : List String → List String × List String
  | [] => ([], [])
  | l :: rest =>
    if pyStrip l = "" then collectUppers rest
    else if pyIsUpperStr (pyStrip l) then
      ((collectUppers rest).1.cons (pyStrip l), (collectUppers rest).2)
    else ([], l :: rest)

/-- The body loop of `parse_psychic_powers`: skip blanks, stop at an
all-caps heading, record recognised `Key: value` lines into the fields
dictionary (later assignments overwrite), and accumulate everything else
as description lines.  Returns the fields, the description lines and the
unconsumed remainder. -/
def collectBody : List String → List (String × String) → List String →
    List (String × String) × List String × List String
  | [], fields, desc => (fields, desc, [])
  | l :: rest, fields, desc =>
    if pyStrip l = "" then collectBody rest fields desc
    else if pyIsUpperStr (pyStrip l) then (fields, desc, l :: rest)
    else
      match pySplitOnce (pyStrip l) ':' with
      | some (k, v) =>
        if psychicKeys.contains (pyLower (pyStrip k)) then
          collectBody rest (setKey fields (pyLower (pyStrip k)) (pyStrip v)) desc
        else collectBody rest fields (desc ++ [pyStrip l])
      | none => collectBody rest fields (desc ++ [pyStrip l])

/-- `int(fields["threshold"].split()[0])`, with `none` for the `KeyError`,
`IndexError` or `ValueError` the source converts into a `ParseError`. -/
def thresholdOf (fields : List (String × String)) : Option Int :=
  match getKey fields "threshold" with
  | none => none
  | some tv =>
    match pySplitWs tv with
    | [] => none
    | w :: _ => pyInt w

/-- Python `s.replace("  ", " ")`: non-overlapping left-to-right
replacement of double spaces. -/
def replaceDoubleSpace : List Char → List Char
  | ' ' :: ' ' :: rest => ' ' :: replaceDoubleSpace rest
  | c :: rest => c :: replaceDoubleSpace rest
  | [] => []

/-- Join description lines as the source does. -/
def joinDescription (desc : List String) : String :=
  pyStrip (String.mk (replaceDoubleSpace (String.intercalate " " desc).data))

/-- The main loop of `parse_psychic_powers`; `fuel` bounds the number of
powers and is always at least the number of remaining lines (each power
consumes at least its first name line, so the zero-fuel base is never
reached from the wrapper below). -/
def psychicGo (page : Option Int) (source : Option String) :
    Nat → List String → List PsychicPowerEntry → Except PyErr (List PsychicPowerEntry)
  | 0, _, acc => .ok acc
  | fuel + 1, ls, acc =>
    match ls.dropWhile (fun l => pyStrip l = "") with
    | [] => .ok acc
    | l :: rest =>
      if ¬ pyIsUpperStr (pyStrip l) then
        .error (.parseError "Expected psychic power name in uppercase.")
      else
        match thresholdOf (collectBody (collectUppers rest).2 [] []).1 with
        | none =>
          .error (.parseError ("Missing or invalid threshold for psychic power " ++
            normaliseName (pyStrip l :: (collectUppers rest).1)))
        | some n =>
          psychicGo page source fuel (collectBody (collectUppers rest).2 [] []).2.2
            (acc ++ [{
              name := normaliseName (pyStrip l :: (collectUppers rest).1)
              threshold := n
              focus_time := (getKey (collectBody (collectUppers rest).2 [] []).1 "focus time").getD ""
              sustain := (getKey (collectBody (collectUppers rest).2 [] []).1 "sustain").getD ""
              range := (getKey (collectBody (collectUppers rest).2 [] []).1 "range").getD ""
              description := joinDescription (collectBody (collectUppers rest).2 [] []).2.1
              page := page
              source := source }])

/-- The right-stripped lines the prose parsers iterate over. -/
def ppLines (text : String) : List String := (pySplitlines text).map pyRstrip

/-- `parse_psychic_powers` from `parsers.py`. -/
def parsePsychicPowers (text : String) (page : Option Int := none)
    (source : Option String := none) : Except PyErr (List PsychicPowerEntry) :=
  match psychicGo page source ((ppLines text).length + 1) (ppLines text) [] with
  | .error e => .error e
  | .ok entries =>
    if entries.isEmpty then
      .error (.parseError "No psychic powers were parsed from the provided text.")
    else .ok entries

/-! ## String lemmas for whitespace-free values -/

theorem strEq {a b : String} (h : a.data = b.data) : a = b := by
  cases a with
  | mk da =>
    cases b with
    | mk db => exact congrArg String.mk h

theorem strMkData (s : String) : String.mk s.data = s := by
  cases s; rfl

theorem dropWhile_eq_self_of_all {l : List Char}
    (h : l.all (fun c => !(pyIsWs c)) = true) : l.dropWhile pyIsWs = l := by
  cases l with
  | nil => rfl
  | cons c rest =>
    have hc : pyIsWs c = false := by
      have h2 := h
      simp [List.all_cons] at h2
      simpa using h2.1
    simp [List.dropWhile_cons, hc]

theorem rstripL_eq_self_of_all {l : List Char}
    (h : l.all (fun c => !(pyIsWs c)) = true) : rstripL l = l := by
  unfold rstripL
  rw [dropWhile_eq_self_of_all (by simpa using h), List.reverse_reverse]

theorem lstripL_eq_self_of_all {l : List Char}
    (h : l.all (fun c => !(pyIsWs c)) = true) : lstripL l = l :=
  dropWhile_eq_self_of_all h

theorem noWs_pyStrip {v : String}
    (h : v.data.all (fun c => !(pyIsWs c)) = true) : pyStrip v = v := by
  unfold pyStrip
  rw [rstripL_eq_self_of_all h, lstripL_eq_self_of_all h, strMkData]

theorem data_ne_nil_of_ne_empty {v : String} (h : v ≠ "") : v.data ≠ [] := by
  intro hd
  exact h (strEq (by simpa using hd))

theorem rstripL_append_of_all {a : List Char} {v : String}
    (hall : v.data.all (fun c => !(pyIsWs c)) = true) (hne : v ≠ "") :
    rstripL (a ++ v.data) = a ++ v.data := by
  unfold rstripL
  rw [List.reverse_append]
  cases hrev : v.data.reverse with
  | nil =>
    exact absurd (by simpa using congrArg List.reverse hrev)
      (data_ne_nil_of_ne_empty hne)
  | cons d ds =>
    have hd : d ∈ v.data := by
      have : d ∈ v.data.reverse := by rw [hrev]; exact List.mem_cons_self d ds
      simpa using this
    have hdw : pyIsWs d = false := by
      have := List.all_eq_true.mp hall d hd
      simpa using this
    simp [List.dropWhile_cons, hdw, hrev]
    rw [← List.reverse_cons, ← hrev, List.reverse_reverse]

theorem strip_prefix_line {pre : String} {v : String}
    (hpre1 : pre.data ≠ [])
    (hpre2 : pyIsWs (pre.data.headI) = false)
    (hall : v.data.all (fun c => !(pyIsWs c)) = true) (hne : v ≠ "") :
    pyStrip (pre ++ v) = pre ++ v := by
  unfold pyStrip
  rw [String.data_append, rstripL_append_of_all hall hne]
  apply strEq
  show lstripL (pre.data ++ v.data) = (pre ++ v).data
  rw [String.data_append]
  unfold lstripL
  cases hp : pre.data with
  | nil => exact absurd hp hpre1
  | cons c cs =>
    have hcw : pyIsWs c = false := by
      rw [hp] at hpre2
      simpa using hpre2
    simp [List.dropWhile_cons, hcw]

theorem strip_space_val {v : String}
    (hall : v.data.all (fun c => !(pyIsWs c)) = true) :
    pyStrip (" " ++ v) = v := by
  by_cases hne : v = ""
  · subst hne
    decide
  · unfold pyStrip
    rw [String.data_append]
    have hsp : (" " : String).data = [' '] := rfl
    rw [hsp]
    rw [rstripL_append_of_all hall hne]
    unfold lstripL
    simp only [List.cons_append, List.nil_append, List.dropWhile_cons]
    rw [if_pos (by decide)]
    rw [dropWhile_eq_self_of_all hall, strMkData]

/-! ## Lemmas about metadata lines of the form `"Range: " ++ v` -/

theorem rangeLine_split (v : String) :
    pySplitOnce ("Range: " ++ v) ':' = some ("Range", " " ++ v) := rfl

theorem rangeLine_not_upper (v : String) :
    pyIsUpperStr ("Range: " ++ v) = false := rfl

theorem rangeLine_ne (v : String) : (("Range: " ++ v) = "") = False := by
  apply eq_false
  intro h
  have h2 := congrArg String.data h
  rw [String.data_append] at h2
  have hd : ("Range: " : String).data =
      'R' :: 'a' :: 'n' :: 'g' :: 'e' :: ':' :: ' ' :: [] := rfl
  rw [hd] at h2
  simp at h2

/-- C4 counterexample: with two `Range:` lines in one power's block, the
value recorded on the entry is the one from the second (last) occurrence,
not the first, refuting "first occurrence wins". -/
theorem claim_C4_counterexample :
    ∃ e : PsychicPowerEntry,
      parsePsychicPowers "VISIONS\nThreshold: 5\nRange: 10m\nRange: 20m\nA short description."
        none none = .ok [e] ∧
      e.range = "20m" ∧ e.range ≠ "10m" := by
  refine ⟨⟨"Visions", 5, "", "", "20m", "A short description.", none, none⟩, ?_, rfl, ?_⟩
  · rfl
  · decide

/-! ## Character ledger (`ttrpgtools/models.py`) and storage
(`ttrpgtools/storage.py`)

Python dictionaries keyed by lowered names are modelled as association
lists where assignment overwrites in place; the process-wide career
registry is passed explicitly. -/

/-- Python `d[k] = v` on a generic string-keyed dict. -/
def dictSet {α : Type} (m : List (String × α)) (k : String) (v : α) :
    List (String × α) :=
  if m.any (fun kv => kv.1 = k) then
    m.map (fun kv => if kv.1 = k then (k, v) else kv)
  else m ++ [(k, v)]

/-- Python `d.get(k)` on a generic string-keyed dict. -/
def dictGet {α : Type} (m : List (String × α)) (k : String) : Option α :=
  (m.find? (fun kv => kv.1 = k)).map (fun kv => kv.2)

/-- Errors of the character ledger and storage layers. -/
inductive MErr where
  | keyError (msg : String)
  | prereqError (msg : String)
  | valueError (msg : String)
deriving Repr, DecidableEq

/-- `Advance` from `models.py` (it has no repeat-limit field). -/
structure Advance where
  name : String
  xp_cost : Int
  page : Int
  prerequisites : List String := []
deriving Repr, DecidableEq

/-- `Advance.missing_prerequisites`. -/
def Advance.missing_prerequisites (a : Advance) (owned : List String) : List String :=
  a.prerequisites.filter (fun n => ¬ (owned.map pyLower).contains (pyLower n))

/-- `AdvancePurchase` from `models.py`. -/
structure AdvancePurchase where
  name : String
  xp_cost : Int
  page : Int
deriving Repr, DecidableEq

/-- `Career` from `models.py`: name plus a dict of advances keyed by
lowered advance name. -/
structure Career where
  name : String
  advances : List (String × Advance)
deriving Repr, DecidableEq

/-- `Career.get_advance`: dict lookup under the lowered name, `KeyError`
when absent. -/
def Career.get_advance (c : Career) (advance_name : String) : Except MErr Advance :=
  match dictGet c.advances (pyLower advance_name) with
  | some a => .ok a
  | none => .error (.keyError "Advance not found for career.")

/-- `Career.from_advances`: build the advances dict keyed by lowered
names (later duplicates overwrite earlier ones, as in the dict
comprehension). -/
def Career.from_advances (name : String) (advances : List Advance) : Career :=
  { name := name
    advances := advances.foldl (fun m a => dictSet m (pyLower a.name) a) [] }

/-- `Character` from `models.py`. -/
structure Character where
  name : String
  career : Career
  xp_total : Int
  purchases : List AdvancePurchase := []
deriving Repr, DecidableEq

/-- `Character.has_advance` (case-insensitive). -/
def Character.has_advance (c : Character) (advance_name : String) : Bool :=
  c.purchases.any (fun p => pyLower p.name = pyLower advance_name)

/-- `Character.xp_spent`. -/
def Character.xp_spent (c : Character) : Int :=
  (c.purchases.map (fun p => p.xp_cost)).sum

/-- `Character.xp_available`. -/
def Character.xp_available (c : Character) : Int := c.xp_total - c.xp_spent

/-- `Character._validate_purchase`: duplicate purchase, missing
prerequisites, then insufficient XP, in that order.  The source has no
repeat-limit notion: any repurchase fails the first test. -/
def Character.validate_purchase (c : Character) (advance : Advance) : Except MErr Unit :=
  if c.has_advance advance.name then
    .error (.prereqError "Advance has already been purchased.")
  else if ¬ (advance.missing_prerequisites (c.purchases.map (fun p => p.name))).isEmpty then
    .error (.prereqError "Missing prerequisites.")
  else if advance.xp_cost > c.xp_available then
    .error (.prereqError "Not enough XP.")
  else .ok ()

/-- `Character.purchase_advance`: look the advance up, validate, append
the purchase. -/
def Character.purchase_advance (c : Character) (advance_name : String)
    (page_override : Option Int := none) : Except MErr (Character × AdvancePurchase) :=
  match c.career.get_advance advance_name with
  | .error e => .error e
  | .ok advance =>
    match c.validate_purchase advance with
    | .error e => .error e
    | .ok _ =>
      let purchase : AdvancePurchase :=
        { name := advance.name
          xp_cost := advance.xp_cost
          page := page_override.getD advance.page }
      .ok ({ c with purchases := c.purchases ++ [purchase] }, purchase)

/-- `register_career`: store under the lowered career name. -/
def registerCareer (reg : List (String × Career)) (career : Career) :
    List (String × Career) :=
  dictSet reg (pyLower career.name) career

/-- `get_career`: dict lookup under the lowered name, `KeyError` when
absent. -/
def getCareer (reg : List (String × Career)) (name : String) : Except MErr Career :=
  match dictGet reg (pyLower name) with
  | some c => .ok c
  | none => .error (.keyError "Career is not registered.")

/-- The built-in "Soldier" sample career registered at module import. -/
def soldierCareer : Career :=
  Career.from_advances "Soldier"
    [{ name := "Basic Training", xp_cost := 100, page := 45, prerequisites := [] },
     { name := "Shield Wall", xp_cost := 150, page := 47, prerequisites := ["Basic Training"] },
     { name := "Battlefield Commander", xp_cost := 300, page := 52,
       prerequisites := ["Shield Wall"] }]

/-- One `purchases` element of a persisted character payload. -/
structure PurchasePayload where
  name : String
  xp_cost : Int
  page : Int
deriving Repr, DecidableEq

/-- A persisted character payload (`storage.py`). -/
structure CharacterPayload where
  name : String
  career : String
  xp_total : Int
  purchases : List PurchasePayload
deriving Repr, DecidableEq

/-- One iteration of the purchase-restoring loop of `character_from_dict`:
resolve the advance, check its prerequisites against the purchases restored
so far (raising `ValueError` naming the advance when some are missing), and
append it.  No duplicate or repeat-limit check is performed. -/
def restorePurchase (career : Career) (c : Character) (pd : PurchasePayload) :
    Except MErr Character :=
  match career.get_advance pd.name with
  | .error e => .error e
  | .ok advance =>
    if ¬ (advance.missing_prerequisites (c.purchases.map (fun p => p.name))).isEmpty then
      .error (.valueError ("Advance " ++ advance.name ++ " is missing prerequisites."))
    else
      .ok { c with purchases := c.purchases ++
        [{ name := advance.name, xp_cost := advance.xp_cost, page := pd.page }] }

/-- `character_from_dict` from `storage.py`, with the career registry
passed explicitly. -/
def characterFromDict (reg : List (String × Career)) (payload : CharacterPayload) :
    Except MErr Character :=
  match getCareer reg payload.career with
  | .error e => .error e
  | .ok career =>
    match payload.purchases.foldlM (restorePurchase career)
        { name := payload.name, career := career, xp_total := payload.xp_total,
          purchases := [] } with
    | .error e => .error e
    | .ok character =>
      if character.xp_spent > character.xp_total then
        .error (.valueError "Character spends more XP than it has.")
      else .ok character

/-! ## `parse_advances_table` -/

/-- `re.fullmatch(r"[0-9][0-9,]*", token)`. -/
def costTokenMatch (t : String) : Bool :=
  match t.data with
  | [] => false
  | c :: rest => c.isDigit && rest.all (fun d => d.isDigit || d = ',')

/-- `re.match(r"advance\s+cost\s+type", lowered)`. -/
def matchAdvHeader (lowered : String) : Bool :=
  let d := lowered.data
  if "advance".data.isPrefixOf d then
    let r1 := d.drop 7
    let w1 := r1.takeWhile pyIsWs
    let r2 := r1.dropWhile pyIsWs
    if w1.isEmpty then false
    else if "cost".data.isPrefixOf r2 then
      let r3 := r2.drop 4
      let w2 := r3.takeWhile pyIsWs
      let r4 := r3.dropWhile pyIsWs
      ¬ w2.isEmpty && "type".data.isPrefixOf r4
    else false
  else false

/-- `_split_advances_row` from `parsers.py`: the cost column is the first
pure-digit (comma-grouped) token that is not first and leaves at least two
trailing tokens. -/
def splitAdvancesRow (row : String) : Except PyErr (String × String × String × String) :=
  match tokenizeTableRow row with
  | .error e => .error e
  | .ok tokens =>
    match tokens.findIdx? costTokenMatch with
    | none => .error (.parseError "Advance row does not contain a valid cost.")
    | some ci =>
      if ci = 0 ∨ ci ≥ tokens.length - 2 then
        .error (.parseError "Advance row does not contain a valid cost.")
      else
        let prereqToks := tokens.drop (ci + 2)
        .ok (String.intercalate " " (tokens.take ci),
             (tokens.drop ci).headI,
             (tokens.drop (ci + 1)).headI,
             if prereqToks.isEmpty then String.mk [emDash]
             else String.intercalate " " prereqToks)

/-- Loop state of `parse_advances_table`. -/
structure AdvState where
  headerFound : Bool
  entries : List AdvanceEntry
  stopped : Bool
deriving Repr, DecidableEq

/-- One iteration of the `parse_advances_table` line loop.  Unlike the
talent-table loop there is no per-row recovery: a row that does not split
aborts the parse. -/
def advancesStep (page : Option Int) (source : Option String)
    (st : AdvState) (line : String) : Except PyErr AdvState :=
  if st.stopped then .ok st
  else if pyStartsWith (pyLower line) "table" then .ok st
  else if ¬ st.headerFound ∧ matchAdvHeader (pyLower line) then
    .ok { st with headerFound := true }
  else if pyStartsWith line "---" then
    .ok { st with headerFound := true, stopped := true }
  else
    match splitAdvancesRow line with
    | .error e => .error e
    | .ok (name, costText, advanceType, prereqText) =>
      match pyInt (pyRemoveChar costText ',') with
      | none => .error (.valueError "invalid literal for int() with base 10")
      | some cost =>
        .ok { headerFound := true
              entries := st.entries ++ [{
                name := normaliseName [name]
                cost := cost
                advance_type := advanceType
                prerequisites := splitPrereqList prereqText
                page := page
                source := source }]
              stopped := st.stopped }

/-- `parse_advances_table` from `parsers.py`. -/
def parseAdvancesTable (text : String) (page : Option Int := none)
    (source : Option String := none) : Except PyErr (List AdvanceEntry) :=
  match (tableLines text).foldlM (advancesStep page source)
      { headerFound := false, entries := [], stopped := false } with
  | .error e => .error e
  | .ok st =>
    if ¬ st.headerFound ∨ st.entries.isEmpty then
      .error (.parseError "No advance entries were parsed from the provided text.")
    else .ok st.entries

/-! ## `parse_talent_prose` -/

/-- Drop the first `n` characters of a string (Python slicing `s[n:]`). -/
def pyDropChars (s : String) (n : Nat) : String := String.mk (s.data.drop n)

/-- The name-gathering loop of `parse_talent_prose`: like the psychic one
but a "Prerequisites:" line also ends the name. -/
def collectProseNames : List String → List String × List String
  | [] => ([], [])
  | l :: rest =>
    if pyStrip l = "" then collectProseNames rest
    else if pyStartsWith (pyStrip l) "Prerequisites:" then ([], l :: rest)
    else if pyIsUpperStr (pyStrip l) then
      ((collectProseNames rest).1.cons (pyStrip l), (collectProseNames rest).2)
    else ([], l :: rest)

/-- Continuation absorption for a "Prerequisites:" stanza: stop on a blank
line (consuming it), an all-caps heading, a "Talent Groups:"/"Special:"
marker or any colon-bearing line; append other lines, stopping after one
that ends in a period. -/
def absorbPrereqs : List String → String → String × List String
  | [], buf => (buf, [])
  | l :: rest, buf =>
    if pyStrip l = "" then (buf, rest)
    else if pyIsUpperStr (pyStrip l) ∧ ¬ pyStartsWith (pyStrip l) "Prerequisites:" then
      (buf, l :: rest)
    else if pyStartsWith (pyLower (pyStrip l)) "talent groups:" ∨
        pyStartsWith (pyLower (pyStrip l)) "special:" then
      (buf, l :: rest)
    else if pyHasChar (pyStrip l) ':' then (buf, l :: rest)
    else if pyEndsWith (pyStrip l) "." then (buf ++ " " ++ pyStrip l, rest)
    else absorbPrereqs rest (buf ++ " " ++ pyStrip l)

/-- The prerequisite list comprehension of `parse_talent_prose` (commas
only). -/
def prosePrereqList (buf : String) : List String :=
  (splitAnyL [','] buf.data []).filterMap (fun item =>
    let s := pyStrip item
    if s ≠ "" ∧ s ≠ String.mk [emDash] then some (pyRstripChars s ['.'])
    else none)

/-- The description loop shared shape: skip blanks, stop at an all-caps
heading, accumulate stripped lines. -/
def collectDescription : List String → List String × List String
  | [] => ([], [])
  | l :: rest =>
    if pyStrip l = "" then collectDescription rest
    else if pyIsUpperStr (pyStrip l) then ([], l :: rest)
    else
      ((collectDescription rest).1.cons (pyStrip l), (collectDescription rest).2)

/-- The prerequisites phase of `parse_talent_prose`: when the next line is
a "Prerequisites:" line, consume it (and its continuations unless the
buffer already ends in a period) and return the parsed list. -/
def prosePrereqPhase : List String → List String × List String
  | [] => ([], [])
  | l :: rest =>
    if pyStartsWith (pyStrip l) "Prerequisites:" then
      let buf0 := pyStrip (pyDropChars (pyStrip l) 14)
      if pyEndsWith buf0 "." then (prosePrereqList buf0, rest)
      else
        ((prosePrereqList (absorbPrereqs rest buf0).1), (absorbPrereqs rest buf0).2)
    else ([], l :: rest)

/-- The main loop of `parse_talent_prose`; `fuel` as in `psychicGo`. -/
def proseGo (page : Option Int) (source : Option String) :
    Nat → List String → List TalentEntry → Except PyErr (List TalentEntry)
  | 0, _, acc => .ok acc
  | fuel + 1, ls, acc =>
    match ls.dropWhile (fun l => pyStrip l = "") with
    | [] => .ok acc
    | l :: rest =>
      if ¬ pyIsUpperStr (pyStrip l) then
        .error (.parseError "Expected talent name in uppercase.")
      else
        proseGo page source fuel
          (collectDescription (prosePrereqPhase (collectProseNames rest).2).2).2
          (acc ++ [{
            name := normaliseName (pyStrip l :: (collectProseNames rest).1)
            prerequisites := (prosePrereqPhase (collectProseNames rest).2).1
            description := joinDescription
              (collectDescription (prosePrereqPhase (collectProseNames rest).2).2).1
            page := page
            source := source }])

/-- `parse_talent_prose` from `parsers.py`. -/
def parseTalentProse (text : String) (page : Option Int := none)
    (source : Option String := none) : Except PyErr (List TalentEntry) :=
  match proseGo page source ((ppLines text).length + 1) (ppLines text) [] with
  | .error e => .error e
  | .ok entries =>
    if entries.isEmpty then
      .error (.parseError "No talents were discovered in the prose block.")
    else .ok entries

/-! ## Section auto-discovery (`ttrpgtools/book_import.py`)

Keyword arguments are modelled explicitly: every parser's Python signature
accepts only `page` and `source` keywords, so a call that passes `career`
or `rank` raises `TypeError` before the parser body runs; that exception is
not the `ParseError` the per-window probe catches, so it propagates. -/

/-- A parsed entry of any kind, as collected by `auto_parse_book`. -/
inductive Entry where
  | talent (e : TalentEntry)
  | advance (e : AdvanceEntry)
  | charAdv (e : CharacteristicAdvanceEntry)
  | divination (e : DivinationResultEntry)
  | psychic (e : PsychicPowerEntry)
deriving Repr, DecidableEq

/-- The six registered parsers. -/
inductive PKind where
  | talentTable
  | talentProse
  | advances
  | charAdv
  | divination
  | psychic
deriving Repr, DecidableEq

/-- Run a parser on a window with `page`/`source` only. -/
def runParser : PKind → String → Option Int → Option String → Except PyErr (List Entry)
  | .talentTable, text, p, s => (parseTalentTable text p s).map (List.map Entry.talent)
  | .talentProse, text, p, s => (parseTalentProse text p s).map (List.map Entry.talent)
  | .advances, text, p, s => (parseAdvancesTable text p s).map (List.map Entry.advance)
  | .charAdv, text, p, s =>
    (parseCharacteristicAdvancesTable text p s).map (List.map Entry.charAdv)
  | .divination, text, p, s =>
    (parseDivinationTable text p s).map (List.map Entry.divination)
  | .psychic, text, p, s => (parsePsychicPowers text p s).map (List.map Entry.psychic)

/-- The keyword arguments `_try_parse_window` builds for a parser call. -/
structure Kwargs where
  page : Option Int
  source : Option String
  career : Option String
  rank : Option String
deriving Repr, DecidableEq

/-- A Python call `parser(window, **kwargs)`: since no parser accepts a
`career` or `rank` keyword, their presence raises `TypeError`. -/
def callParser (k : PKind) (kw : Kwargs) (text : String) : Except PyErr (List Entry) :=
  if kw.career.isSome || kw.rank.isSome then
    .error (.typeError "unexpected keyword argument")
  else runParser k text kw.page kw.source

/-- The stripped-and-lowered form of a line, used by the start detectors. -/
def stripLower (l : String) : String := pyLower (pyStrip l)

/-- `_find_previous_table_header`: step one line back when the preceding
line starts with "table". -/
def findPrevTableHeader (lines : List String) (idx : Nat) : Nat :=
  if idx > 0 ∧ pyStartsWith (stripLower (lines.getD (idx - 1) "")) "table" then idx - 1
  else idx

/-- `re.match(r"^characteristic\s+simple\b", stripped, re.IGNORECASE)`. -/
def matchCharSimple (s : String) : Bool :=
  let d := (pyLower s).data
  if "characteristic".data.isPrefixOf d then
    let r1 := d.drop 14
    let ws := r1.takeWhile pyIsWs
    let r2 := r1.dropWhile pyIsWs
    if ws.isEmpty then false
    else if "simple".data.isPrefixOf r2 then
      match r2.drop 6 with
      | [] => true
      | c :: _ => ¬ (c.isAlpha || c.isDigit || c = '_')
    else false
  else false

/-- Lookahead scan of `_talent_prose_start`: the first non-blank line
decides, firing only on a "Prerequisites:" line. -/
def proseSliceFires : List String → Bool
  | [] => false
  | l :: rest =>
    if pyStrip l = "" then proseSliceFires rest
    else pyStartsWith (pyLower (pyStrip l)) "prerequisites:"

/-- Lookahead scan of `_psychic_power_start`: fire on a recognised
metadata prefix, stop at any other colon-bearing line, keep scanning
otherwise. -/
def psychicSliceFires : List String → Bool
  | [] => false
  | l :: rest =>
    if pyLower (pyStrip l) = "" then psychicSliceFires rest
    else if pyStartsWith (pyLower (pyStrip l)) "threshold:" ||
        pyStartsWith (pyLower (pyStrip l)) "focus time:" ||
        pyStartsWith (pyLower (pyStrip l)) "sustain:" ||
        pyStartsWith (pyLower (pyStrip l)) "range:" then true
    else if pyHasChar (pyLower (pyStrip l)) ':' then false
    else psychicSliceFires rest

/-- The slice `lines[from:to]`. -/
def lineSlice (lines : List String) (lo hi : Nat) : List String :=
  (lines.drop lo).take (hi - lo)

/-- The start detector of each parser kind. -/
def detectorStart : PKind → List String → Nat → Option Nat
  | .talentTable, lines, idx =>
    if pyStartsWith (stripLower (lines.getD idx "")) "talent name" then
      some (findPrevTableHeader lines idx)
    else none
  | .talentProse, lines, idx =>
    if pyStrip (lines.getD idx "") = "" ∨ ¬ pyIsUpperStr (pyStrip (lines.getD idx "")) then
      none
    else if proseSliceFires (lineSlice lines (idx + 1) (min (idx + 6) lines.length)) then
      some idx
    else none
  | .advances, lines, idx =>
    if pyStartsWith (stripLower (lines.getD idx "")) "advance cost type" then
      some (findPrevTableHeader lines idx)
    else none
  | .charAdv, lines, idx =>
    if matchCharSimple (pyStrip (lines.getD idx "")) then
      some (findPrevTableHeader lines idx)
    else none
  | .divination, lines, idx =>
    if pyStartsWith (stripLower (lines.getD idx "")) "table" &&
        pyContains (stripLower (lines.getD idx "")) "divination" then
      some idx
    else none
  | .psychic, lines, idx =>
    if pyStrip (lines.getD idx "") = "" ∨ ¬ pyIsUpperStr (pyStrip (lines.getD idx "")) then
      none
    else if psychicSliceFires (lineSlice lines (idx + 1) (min (idx + 8) lines.length)) then
      some idx
    else none

/-- One registered detector: parser kind plus probe budget. -/
structure Detector where
  kind : PKind
  maxLines : Nat
deriving Repr, DecidableEq

/-- `_DETECTORS`, in registration (priority) order. -/
def DETECTORS : List Detector :=
  [⟨.talentTable, 200⟩, ⟨.talentProse, 200⟩, ⟨.advances, 120⟩,
   ⟨.charAdv, 120⟩, ⟨.divination, 120⟩, ⟨.psychic, 200⟩]

/-- Does any detector other than `ignore` fire at `idx` with a start other
than `start`? -/
def otherDetectorFires (lines : List String) (start : Nat) (ignore : PKind)
    (idx : Nat) : Bool :=
  DETECTORS.any (fun d =>
    d.kind ≠ ignore &&
      match detectorStart d.kind lines idx with
      | some r => r ≠ start
      | none => false)

/-- `_next_detector_index`. -/
def nextDetectorIndex (lines : List String) (start : Nat) (ignore : PKind) :
    Option Nat :=
  (List.range' (start + 1) (lines.length - (start + 1))).find?
    (otherDetectorFires lines start ignore)

/-- Python truthiness of an optional string: the empty string is falsy. -/
def truthy (o : Option String) : Option String :=
  match o with
  | some s => if s = "" then none else some s
  | none => none

/-- `\s+` followed by `characteristic` `\s+` `advance`, the tail of the
career-header pattern (on a lowered line). -/
def careerTailMatches (d : List Char) : Bool :=
  let w1 := d.takeWhile pyIsWs
  let r1 := d.dropWhile pyIsWs
  if w1.isEmpty then false
  else if "characteristic".data.isPrefixOf r1 then
    let r2 := (r1.drop 14).dropWhile pyIsWs
    ¬ ((r1.drop 14).takeWhile pyIsWs).isEmpty && "advance".data.isPrefixOf r2
  else false

/-- A character of the lazy group `[a-z\s-]` on a lowered line. -/
def careerGroupChar (c : Char) : Bool :=
  (('a' ≤ c ∧ c ≤ 'z') : Bool) || pyIsWs c || c = '-'

/-- The lazy group `([a-z\s-]+?)` of the career-header pattern: at each
position (after at least one character) first try to finish with the tail,
otherwise extend the group. -/
def careerLazyGo : List Char → List Char → Option (List Char)
  | acc, d =>
    if ¬ acc.isEmpty ∧ careerTailMatches d then some acc.reverse
    else
      match d with
      | [] => none
      | c :: rest => if careerGroupChar c then careerLazyGo (c :: acc) rest else none

/-- `re.match(r"table\s+[\d-]+:\s+([a-z\s-]+?)\s+characteristic\s+advance",
line, re.IGNORECASE)` on a stripped line, returning
`group(1).strip().title()`. -/
def careerHeaderMatch (line : String) : Option String :=
  let d := (pyLower line).data
  if "table".data.isPrefixOf d then
    let r1 := d.drop 5
    let w1 := r1.takeWhile pyIsWs
    let r2 := r1.dropWhile pyIsWs
    if w1.isEmpty then none
    else
      let num := r2.takeWhile (fun c => c.isDigit || c = '-')
      let r3 := r2.dropWhile (fun c => c.isDigit || c = '-')
      if num.isEmpty then none
      else
        match r3 with
        | ':' :: r4 =>
          let w2 := r4.takeWhile pyIsWs
          let r5 := r4.dropWhile pyIsWs
          if w2.isEmpty then none
          else
            match careerLazyGo [] r5 with
            | some grp => some (pyTitle (pyStrip (String.mk grp)))
            | none => none
        | _ => none
  else none

/-- `_extract_career_from_table_header`. -/
def extractCareerFromTableHeader (lines : List String) (start : Nat) : Option String :=
  ((List.range' (start - 5) ((start + 3) - (start - 5))).filter
    (fun i => i < lines.length)).findSome?
    (fun i => careerHeaderMatch (pyStrip (lines.getD i "")))

/-- The inner scan of `_extract_rank_from_context`: the first non-blank of
the following lines must read exactly "ADVANCES" (case folded). -/
def innerAdvancesCheck : List String → Bool
  | [] => false
  | l :: rest =>
    if pyStrip l = "" then innerAdvancesCheck rest
    else pyUpper (pyStrip l) = "ADVANCES"

/-- The descending index range `range(start - 1, max(0, start - 20), -1)`
(exclusive lower stop, as in Python). -/
def descRange (start stop : Nat) : List Nat :=
  (List.range' (stop + 1) (start - 1 - stop)).reverse

/-- `_extract_rank_from_context`. -/
def extractRankFromContext (lines : List String) (start : Nat) : Option String :=
  (descRange start (max 0 (start - 20))).findSome? (fun i =>
    if pyStrip (lines.getD i "") ≠ "" ∧
        pyIsUpperStr (pyStrip (lines.getD i "")) ∧
        (pyStrip (lines.getD i "")).data.length > 2 ∧
        pyIsAlphaStr (pyStrip (lines.getD i "")) then
      if innerAdvancesCheck (lineSlice lines (i + 1) (min lines.length (i + 5))) then
        some (pyTitle (pyStrip (lines.getD i "")))
      else none
    else none)

/-- The backward career search `_try_parse_window` performs for advances
tables (up to 100 lines back, exclusive stop, first truthy hit wins). -/
def advCareerSearch (lines : List String) (start : Nat) : Option String :=
  (descRange start (max 0 (start - 100))).findSome?
    (fun i => truthy (extractCareerFromTableHeader lines i))

/-- The keyword arguments `_try_parse_window` builds for a detection. -/
def windowKwargs (kind : PKind) (lines : List String) (start : Nat)
    (page : Option Int) (source : Option String) : Kwargs :=
  { page := page
    source := source
    career :=
      if kind = .charAdv then truthy (extractCareerFromTableHeader lines start)
      else if kind = .advances then advCareerSearch lines start
      else none
    rank :=
      if kind = .advances then truthy (extractRankFromContext lines start)
      else none }

/-- The growing-window probe: try every end point in order, remember the
last success; `ParseError` means "try the next boundary", any other
exception propagates. -/
def probeWindows (kind : PKind) (kw : Kwargs) (lines : List String) (start : Nat) :
    List Nat → Option (Nat × List Entry) → Except PyErr (Option (Nat × List Entry))
  | [], acc => .ok acc
  | e :: rest, acc =>
    match callParser kind kw (String.intercalate "\n" (lineSlice lines start e)) with
    | .error (.parseError _) => probeWindows kind kw lines start rest acc
    | .error err => .error err
    | .ok entries => probeWindows kind kw lines start rest (some (e, entries))

/-- `_try_parse_window`. -/
def tryParseWindow (kind : PKind) (lines : List String) (start stop maxLines : Nat)
    (page : Option Int) (source : Option String) :
    Except PyErr (Option (Nat × List Entry)) :=
  probeWindows kind (windowKwargs kind lines start page source) lines start
    (List.range' (start + 3) (min (min lines.length stop) (start + maxLines) + 1 - (start + 3)))
    none

/-- Try each detector in priority order at the current index; the first
whose window probe succeeds wins. -/
def tryDetectors (page : Option Int) (source : Option String) (lines : List String)
    (idx : Nat) : List Detector → Except PyErr (Option (Nat × Nat × List Entry))
  | [] => .ok none
  | d :: rest =>
    match detectorStart d.kind lines idx with
    | none => tryDetectors page source lines idx rest
    | some start =>
      match tryParseWindow d.kind lines start
          ((nextDetectorIndex lines start d.kind).getD lines.length)
          d.maxLines page source with
      | .error e => .error e
      | .ok none => tryDetectors page source lines idx rest
      | .ok (some (e, entries)) => .ok (some (start, e, entries))

/-- The scan loop of `auto_parse_book`, recording each successful
detection's claimed window `(start, end)` along with its entries.  `fuel`
bounds the iterations; every iteration advances the index by at least one,
so `lines.length + 1` suffices. -/
def autoGo (page : Option Int) (source : Option String) (lines : List String) :
    Nat → Nat → List (Nat × Nat × List Entry) →
    Except PyErr (List (Nat × Nat × List Entry))
  | 0, _, acc => .ok acc
  | fuel + 1, idx, acc =>
    if idx ≥ lines.length then .ok acc
    else
      match tryDetectors page source lines idx DETECTORS with
      | .error e => .error e
      | .ok none => autoGo page source lines fuel (idx + 1) acc
      | .ok (some (start, e, entries)) =>
        autoGo page source lines fuel e (acc ++ [(start, e, entries)])

/-- The line list `auto_parse_book` scans. -/
def autoLines (text : String) : List String :=
  (pySplitlines text).map (fun l => pyRstripChars l ['\n'])

/-- `auto_parse_book`, instrumented to return the successful windows. -/
def autoParseBookWindows (text : String) (page : Option Int := none)
    (source : Option String := none) :
    Except PyErr (List (Nat × Nat × List Entry)) :=
  autoGo page source (autoLines text) ((autoLines text).length + 1) 0 []

/-- `auto_parse_book` from `book_import.py`. -/
def autoParseBook (text : String) (page : Option Int := none)
    (source : Option String := none) : Except PyErr (List Entry) :=
  match autoParseBookWindows text page source with
  | .error e => .error e
  | .ok ws =>
    if (ws.flatMap (fun w => w.2.2)).isEmpty then
      .error (.parseError "No recognizable sections were found in the supplied text.")
    else .ok (ws.flatMap (fun w => w.2.2))

/-! ## Window-bound lemmas for auto-discovery -/

theorem findPrevTableHeader_bounds (lines : List String) (idx : Nat) :
    idx ≤ findPrevTableHeader lines idx + 1 ∧ findPrevTableHeader lines idx ≤ idx := by
  unfold findPrevTableHeader
  split_ifs with h
  · omega
  · omega

theorem detectorStart_bounds {k : PKind} {lines : List String} {idx s : Nat}
    (h : detectorStart k lines idx = some s) : idx ≤ s + 1 ∧ s ≤ idx := by
  cases k
  case talentTable =>
    simp only [detectorStart] at h
    split at h
    · injection h with h
      subst h
      exact findPrevTableHeader_bounds lines idx
    · exact Option.noConfusion h
  case talentProse =>
    simp only [detectorStart] at h
    split at h
    · exact Option.noConfusion h
    · split at h
      · injection h with h; omega
      · exact Option.noConfusion h
  case advances =>
    simp only [detectorStart] at h
    split at h
    · injection h with h
      subst h
      exact findPrevTableHeader_bounds lines idx
    · exact Option.noConfusion h
  case charAdv =>
    simp only [detectorStart] at h
    split at h
    · injection h with h
      subst h
      exact findPrevTableHeader_bounds lines idx
    · exact Option.noConfusion h
  case divination =>
    simp only [detectorStart] at h
    split at h
    · injection h with h; omega
    · exact Option.noConfusion h
  case psychic =>
    simp only [detectorStart] at h
    split at h
    · exact Option.noConfusion h
    · split at h
      · injection h with h; omega
      · exact Option.noConfusion h

theorem probeWindows_bound {kind : PKind} {kw : Kwargs} {lines : List String}
    {start : Nat} :
    ∀ (ends : List Nat) (acc res : Option (Nat × List Entry)),
    probeWindows kind kw lines start ends acc = .ok res →
    (∀ x ∈ ends, start + 3 ≤ x) →
    (∀ e es, acc = some (e, es) → start + 3 ≤ e) →
    ∀ e es, res = some (e, es) → start + 3 ≤ e := by
  intro ends
  induction ends with
  | nil =>
    intro acc res h _ hacc e es hres
    injection h with h
    subst h
    exact hacc e es hres
  | cons x rest ih =>
    intro acc res h hends hacc e es hres
    unfold probeWindows at h
    split at h
    · exact ih _ _ h (fun y hy => hends y (List.mem_cons_of_mem x hy)) hacc e es hres
    · exact Except.noConfusion h
    · refine ih _ _ h (fun y hy => hends y (List.mem_cons_of_mem x hy)) ?_ e es hres
      intro e2 es2 h2
      injection h2 with h2
      have hx : x = e2 := congrArg Prod.fst h2
      rw [← hx]
      exact hends x (List.mem_cons_self x rest)

theorem tryParseWindow_bound {kind : PKind} {lines : List String}
    {start stop maxLines : Nat} {page : Option Int} {source : Option String}
    {e : Nat} {es : List Entry}
    (h : tryParseWindow kind lines start stop maxLines page source = .ok (some (e, es))) :
    start + 3 ≤ e := by
  unfold tryParseWindow at h
  refine probeWindows_bound _ _ _ h ?_ ?_ e es rfl
  · intro x hx
    have := List.mem_range'_1.mp hx
    omega
  · intro e2 es2 h2
    exact Option.noConfusion h2

theorem tryDetectors_bounds {page : Option Int} {source : Option String}
    {lines : List String} {idx : Nat} :
    ∀ (ds : List Detector) (start e : Nat) (es : List Entry),
    tryDetectors page source lines idx ds = .ok (some (start, e, es)) →
    idx ≤ start + 1 ∧ start + 3 ≤ e := by
  intro ds
  induction ds with
  | nil =>
    intro start e es h
    injection h with h
    exact Option.noConfusion h
  | cons d rest ih =>
    intro start e es h
    unfold tryDetectors at h
    split at h
    · exact ih start e es h
    next s0 hs0 =>
      split at h
      · exact Except.noConfusion h
      · exact ih start e es h
      next e0 es0 hw =>
        injection h with h
        injection h with h
        simp only [Prod.mk.injEq] at h
        obtain ⟨h1, h2, h3⟩ := h
        subst h1
        subst h2
        exact ⟨(detectorStart_bounds hs0).1, tryParseWindow_bound hw⟩

/-- The window relation of consecutive detections: the next window starts
no earlier than one line before the previous window's end. -/
def windowRel (a b : Nat × Nat × List Entry) : Prop := a.2.1 ≤ b.1 + 1

theorem autoGo_invariant {page : Option Int} {source : Option String}
    {lines : List String} :
    ∀ (fuel idx : Nat) (acc ws : List (Nat × Nat × List Entry)),
    autoGo page source lines fuel idx acc = .ok ws →
    (∀ w ∈ acc, w.1 + 3 ≤ w.2.1) →
    acc.Chain' windowRel →
    (∀ w, acc.getLast? = some w → w.2.1 ≤ idx) →
    (∀ w ∈ ws, w.1 + 3 ≤ w.2.1) ∧ ws.Chain' windowRel := by
  intro fuel
  induction fuel with
  | zero =>
    intro idx acc ws h h1 h2 _
    injection h with h
    subst h
    exact ⟨h1, h2⟩
  | succ n ih =>
    intro idx acc ws h h1 h2 h3
    unfold autoGo at h
    split at h
    · injection h with h
      subst h
      exact ⟨h1, h2⟩
    · split at h
      · exact Except.noConfusion h
      · exact ih (idx + 1) acc ws h h1 h2
          (fun w hw => Nat.le_succ_of_le (h3 w hw))
      next start e entries hdet =>
        have hb := tryDetectors_bounds DETECTORS start e entries hdet
        refine ih e (acc ++ [(start, e, entries)]) ws h ?_ ?_ ?_
        · intro w hw
          rcases List.mem_append.mp hw with hw1 | hw1
          · exact h1 w hw1
          · rcases List.mem_singleton.mp hw1 with rfl
            exact hb.2
        · rw [List.chain'_append]
          refine ⟨h2, List.chain'_singleton _, ?_⟩
          intro x hx y hy
          rcases List.mem_singleton.mp (by simpa using hy) with rfl
          have := h3 x (by simpa using hx)
          unfold windowRel
          omega
        · intro w hw
          rw [List.getLast?_concat] at hw
          injection hw with hw
          subst hw
          exact le_refl e

/-- C3 counterexample: on this input the divination detector claims window
`[0, 3)` (swallowing the "Table 4: Talents" header line that immediately
follows its rows), and the talent-table detector then fires at the resumed
index 3 and walks one line back onto that same header line, claiming
window `[2, 5)`: the two windows overlap on line 2, refuting pairwise
non-overlap. -/
theorem claim_C3_counterexample :
    ∃ es1 es2 : List Entry,
      autoParseBookWindows
        "Table 1-18: Divination\n1 Bad omen. You suffer.\nTable 4: Talents\nTalent Name Prerequisite Benefit\nAir Of Authority Fel 30 Affect more targets."
        none none = .ok [(0, 3, es1), (2, 5, es2)] ∧
      2 < 3 := by
  refine ⟨_, _, rfl, by omega⟩

/-- C3 amended: the scan does resume at a successful window's end index,
but a later detection may walk one line back onto the previous window's
trailing "Table ..." header line, so consecutive claimed windows
`(s, e)` satisfy only `e ≤ s' + 1` (overlap of at most that one shared
header line) rather than strict disjointness; every window spans at least
three lines. -/
theorem claim_C3_amended (text : String) (page : Option Int) (source : Option String)
    (ws : List (Nat × Nat × List Entry))
    (h : autoParseBookWindows text page source = .ok ws) :
    (∀ w ∈ ws, w.1 + 3 ≤ w.2.1) ∧ ws.Chain' windowRel := by
  refine autoGo_invariant ((autoLines text).length + 1) 0 [] ws h ?_ ?_ ?_
  · intro w hw
    exact absurd hw (List.not_mem_nil w)
  · exact List.chain'_nil
  · intro w hw
    exact Option.noConfusion hw

/-- C3 amended, witness: on a three-line divination table the single
claimed window is `[0, 3)`, which spans three lines and trivially satisfies
the chain bound. -/
theorem claim_C3_amended_witness :
    (∀ w ∈ [((0 : Nat), (3 : Nat),
        [Entry.divination ⟨1, 1, "A", "B.", none, none⟩,
         Entry.divination ⟨2, 2, "C", "D.", none, none⟩])], w.1 + 3 ≤ w.2.1) ∧
    List.Chain' windowRel
      [((0 : Nat), (3 : Nat),
        [Entry.divination ⟨1, 1, "A", "B.", none, none⟩,
         Entry.divination ⟨2, 2, "C", "D.", none, none⟩])] :=
  claim_C3_amended "Table 1: Divination\n1 A. B.\n2 C. D." none none
    [((0 : Nat), (3 : Nat),
      [Entry.divination ⟨1, 1, "A", "B.", none, none⟩,
       Entry.divination ⟨2, 2, "C", "D.", none, none⟩])] rfl

/-- C2: the career/rank context is not additive metadata: no parser's
signature accepts a `career` or `rank` keyword, so as soon as
`_try_parse_window` finds a rank in the context of an advances table
(here "Archivist", from the ALL-CAPS line followed by "ADVANCES"), the
probe's `parse_advances_table(window, rank=...)` call raises `TypeError`,
which is not caught, and the whole `auto_parse_book` run crashes — even
though the same window parses successfully without the extra argument. -/
theorem claim_C2_context_kwargs_crash :
    extractRankFromContext
      (autoLines "\nARCHIVIST\nADVANCES\nAdvance Cost Type Prerequisites\nSound Constitution 100 T —\nSwift Blow 150 T —")
      3 = some "Archivist" ∧
    autoParseBook
      "\nARCHIVIST\nADVANCES\nAdvance Cost Type Prerequisites\nSound Constitution 100 T —\nSwift Blow 150 T —"
      none none = .error (.typeError "unexpected keyword argument") ∧
    parseAdvancesTable
      "Advance Cost Type Prerequisites\nSound Constitution 100 T —\nSwift Blow 150 T —"
      none none =
      .ok [⟨"Sound Constitution", 100, "T", [], none, none⟩,
           ⟨"Swift Blow", 150, "T", [], none, none⟩] :=
  ⟨rfl, rfl, rfl⟩

/-! ## Dictionary lemmas -/

theorem find?_map_replace {α : Type} (k : String) (v : α) :
    ∀ (m : List (String × α)), m.any (fun kv => kv.1 = k) = true →
    (m.map (fun kv => if kv.1 = k then (k, v) else kv)).find?
      (fun kv => kv.1 = k) = some (k, v) := by
  intro m
  induction m with
  | nil => intro h; simp at h
  | cons kv rest ih =>
    intro h
    by_cases hk : kv.1 = k
    · rw [List.map_cons, if_pos hk]
      exact List.find?_cons_of_pos _ (by simp)
    · have h2 : rest.any (fun kv => kv.1 = k) = true := by
        simp [List.any_cons, hk] at h
        simpa using h
      rw [List.map_cons, if_neg hk, List.find?_cons_of_neg _ (by simpa using hk)]
      exact ih h2

theorem dictGet_dictSet_same {α : Type} (m : List (String × α)) (k : String) (v : α) :
    dictGet (dictSet m k v) k = some v := by
  unfold dictSet dictGet
  by_cases h : m.any (fun kv => kv.1 = k) = true
  · rw [if_pos h, find?_map_replace k v m h]
    rfl
  · rw [if_neg h]
    have hnone : m.find? (fun kv => decide (kv.1 = k)) = none := by
      rw [List.find?_eq_none]
      intro kv hkv hcon
      exact h (List.any_eq_true.mpr ⟨kv, hkv, hcon⟩)
    rw [List.find?_append, hnone]
    simp

theorem find?_map_replace_other {α : Type} (k k' : String) (v : α) (hne : k' ≠ k) :
    ∀ (m : List (String × α)),
    (m.map (fun kv => if kv.1 = k' then (k', v) else kv)).find?
      (fun kv => kv.1 = k) = m.find? (fun kv => kv.1 = k) := by
  intro m
  induction m with
  | nil => rfl
  | cons kv rest ih =>
    by_cases hk : kv.1 = k'
    · have hkk : ¬ (kv.1 = k) := by rw [hk]; exact hne
      rw [List.map_cons, if_pos hk,
        List.find?_cons_of_neg _ (by simpa using hne),
        List.find?_cons_of_neg _ (by simpa using hkk)]
      exact ih
    · by_cases hk2 : kv.1 = k
      · rw [List.map_cons, if_neg hk,
          List.find?_cons_of_pos _ (by simpa using hk2),
          List.find?_cons_of_pos _ (by simpa using hk2)]
      · rw [List.map_cons, if_neg hk,
          List.find?_cons_of_neg _ (by simpa using hk2),
          List.find?_cons_of_neg _ (by simpa using hk2)]
        exact ih

theorem dictGet_dictSet_other {α : Type} (m : List (String × α)) (k k' : String)
    (v : α) (hne : k' ≠ k) : dictGet (dictSet m k' v) k = dictGet m k := by
  unfold dictSet dictGet
  by_cases h : m.any (fun kv => kv.1 = k') = true
  · rw [if_pos h, find?_map_replace_other k k' v hne m]
  · rw [if_neg h, List.find?_append]
    have : ([(k', v)].find? (fun kv => decide (kv.1 = k))) = none := by
      simp [List.find?_cons, hne]
    rw [this]
    simp

theorem dictGet_fold_untouched :
    ∀ (rest : List Advance) (m : List (String × Advance)) (k : String),
    (∀ y ∈ rest, pyLower y.name ≠ k) →
    dictGet (rest.foldl (fun acc x => dictSet acc (pyLower x.name) x) m) k =
      dictGet m k := by
  intro rest
  induction rest with
  | nil => intro m k _; rfl
  | cons y ys ih =>
    intro m k hk
    rw [List.foldl_cons]
    rw [ih _ k (fun z hz => hk z (List.mem_cons_of_mem y hz))]
    exact dictGet_dictSet_other m k (pyLower y.name) y
      (hk y (List.mem_cons_self y ys))

theorem dictGet_fromAdvances :
    ∀ (advs : List Advance) (m : List (String × Advance)) (a : Advance),
    a ∈ advs → (advs.map (fun x => pyLower x.name)).Nodup →
    dictGet (advs.foldl (fun acc x => dictSet acc (pyLower x.name) x) m)
      (pyLower a.name) = some a := by
  intro advs
  induction advs with
  | nil => intro m a ha _; cases ha
  | cons x rest ih =>
    intro m a ha hnd
    simp only [List.map_cons] at hnd
    have hnc := List.nodup_cons.mp hnd
    rw [List.foldl_cons]
    rcases List.mem_cons.mp ha with rfl | ha2
    · have hnot : ∀ y ∈ rest, pyLower y.name ≠ pyLower a.name := by
        intro y hy hcon
        exact hnc.1 (hcon ▸ List.mem_map_of_mem _ hy)
      rw [dictGet_fold_untouched rest _ _ hnot]
      exact dictGet_dictSet_same m (pyLower a.name) a
    · exact ih _ a ha2 hnc.2

/-! ## Last-occurrence semantics of the psychic-power metadata dictionary -/

theorem getKey_setKey_same (m : List (String × String)) (k v : String) :
    getKey (setKey m k v) k = some v := dictGet_dictSet_same m k v

theorem getKey_setKey_other (m : List (String × String)) (k k' v : String)
    (hne : k' ≠ k) : getKey (setKey m k' v) k = getKey m k :=
  dictGet_dictSet_other m k k' v hne

/-- Modelled from the amended claim's words: the value of the last
`Key: value` line whose key, lowered, equals `k`, among the lines of one
power's block (the lines before the next all-caps heading, blank lines
skipped), to be compared with what the parser's fields dictionary
records. -/
def lastKeyOccurrence (k : String) : List String → Option String
  | [] => none
  | l :: rest =>
    if pyStrip l = "" then lastKeyOccurrence k rest
    else if pyIsUpperStr (pyStrip l) then none
    else
      match pySplitOnce (pyStrip l) ':' with
      | some (kk, v) =>
        if pyLower (pyStrip kk) = k then
          match lastKeyOccurrence k rest with
          | some v2 => some v2
          | none => some (pyStrip v)
        else lastKeyOccurrence k rest
      | none => lastKeyOccurrence k rest

/-- For every recognised key, the fields dictionary produced by the body
loop of `parse_psychic_powers` holds the value of the key's last
occurrence in the block (case-insensitively matched), falling back to the
incoming dictionary when the key never occurs. -/
theorem collectBody_lastKey :
    ∀ (ls : List String) (m : List (String × String)) (d : List String) (k : String),
    k ∈ psychicKeys →
    getKey (collectBody ls m d).1 k =
      match lastKeyOccurrence k ls with
      | some v => some v
      | none => getKey m k := by
  intro ls
  induction ls with
  | nil =>
    intro m d k _
    rfl
  | cons l rest ih =>
    intro m d k hk
    have hck : psychicKeys.contains k = true := List.elem_eq_true_of_mem hk
    unfold collectBody lastKeyOccurrence
    by_cases hb : pyStrip l = ""
    · simp only [if_pos hb]
      exact ih m d k hk
    · simp only [if_neg hb]
      by_cases hu : pyIsUpperStr (pyStrip l) = true
      · simp only [hu, if_true]
      · simp only [Bool.not_eq_true] at hu
        simp only [hu, Bool.false_eq_true, if_false]
        cases hsp : pySplitOnce (pyStrip l) ':' with
        | none =>
          simp only [hsp]
          exact ih m (d ++ [pyStrip l]) k hk
        | some kv =>
          obtain ⟨kk, v⟩ := kv
          simp only [hsp]
          by_cases hrec : psychicKeys.contains (pyLower (pyStrip kk)) = true
          · simp only [hrec, if_true]
            by_cases heq : pyLower (pyStrip kk) = k
            · simp only [heq, eq_self_iff_true, if_true]
              rw [ih (setKey m k (pyStrip v)) d k hk]
              cases hlast : lastKeyOccurrence k rest with
              | none => simp [getKey_setKey_same]
              | some v2 => simp
            · simp only [if_neg heq]
              rw [ih (setKey m (pyLower (pyStrip kk)) (pyStrip v)) d k hk]
              cases hlast : lastKeyOccurrence k rest with
              | none => simp [getKey_setKey_other m k _ _ heq]
              | some v2 => simp
          · simp only [Bool.not_eq_true] at hrec
            simp only [hrec, Bool.false_eq_true, if_false]
            have hne : ¬ (pyLower (pyStrip kk) = k) := by
              intro hcon
              rw [hcon] at hrec
              rw [hrec] at hck
              exact Bool.noConfusion hck
            simp only [if_neg hne]
            exact ih m (d ++ [pyStrip l]) k hk

/-- A single-power block of arbitrary body lines: every string-valued
metadata field of the resulting entry is the value of its key's last
occurrence in the block. -/
theorem psychic_single_block (text nameLine : String) (body : List String)
    (page : Option Int) (source : Option String) (n : Int)
    (hLines : ppLines text = nameLine :: body)
    (hne : pyStrip nameLine ≠ "")
    (hup : pyIsUpperStr (pyStrip nameLine) = true)
    (hcu : collectUppers body = ([], body))
    (hrest : (collectBody body [] []).2.2 = [])
    (hth : thresholdOf (collectBody body [] []).1 = some n) :
    parsePsychicPowers text page source = .ok [{
      name := normaliseName [pyStrip nameLine]
      threshold := n
      focus_time := (lastKeyOccurrence "focus time" body).getD ""
      sustain := (lastKeyOccurrence "sustain" body).getD ""
      range := (lastKeyOccurrence "range" body).getD ""
      description := joinDescription (collectBody body [] []).2.1
      page := page
      source := source }] := by
  have hf1 := collectBody_lastKey body [] [] "focus time" (by simp [psychicKeys])
  have hf2 := collectBody_lastKey body [] [] "sustain" (by simp [psychicKeys])
  have hf3 := collectBody_lastKey body [] [] "range" (by simp [psychicKeys])
  have e1 : (getKey (collectBody body [] []).1 "focus time").getD "" =
      (lastKeyOccurrence "focus time" body).getD "" := by
    rw [hf1]
    cases lastKeyOccurrence "focus time" body <;> rfl
  have e2 : (getKey (collectBody body [] []).1 "sustain").getD "" =
      (lastKeyOccurrence "sustain" body).getD "" := by
    rw [hf2]
    cases lastKeyOccurrence "sustain" body <;> rfl
  have e3 : (getKey (collectBody body [] []).1 "range").getD "" =
      (lastKeyOccurrence "range" body).getD "" := by
    rw [hf3]
    cases lastKeyOccurrence "range" body <;> rfl
  have hdrop : (nameLine :: body).dropWhile (fun l => decide (pyStrip l = "")) =
      nameLine :: body := by
    rw [List.dropWhile_cons]
    simp [hne]
  unfold parsePsychicPowers
  rw [hLines]
  simp only [List.length_cons]
  simp only [psychicGo, hdrop, hup, hcu, hth, hrest, e1, e2, e3, List.dropWhile_nil]
  simp

/-- C4 amended: for each of the recognised metadata keys — threshold,
focus time, sustain, range — matched case-insensitively, the value
recorded by `parse_psychic_powers` comes from the LAST `Key: value` line
with that key in the power's block, not the first: the fields dictionary
assignment overwrites earlier values.  The first conjunct states this for
the body loop's dictionary, for every key, every block and every incoming
dictionary (each power starts from the empty one); the second instantiates
it at parser level for a whole single-power input, pinning every
string-valued metadata field of the emitted entry to its key's last
occurrence. -/
theorem claim_C4_amended :
    (∀ (ls : List String) (m : List (String × String)) (d : List String) (k : String),
      k ∈ psychicKeys →
      getKey (collectBody ls m d).1 k =
        match lastKeyOccurrence k ls with
        | some v => some v
        | none => getKey m k) ∧
    (∀ (text nameLine : String) (body : List String) (page : Option Int)
        (source : Option String) (n : Int),
      ppLines text = nameLine :: body →
      pyStrip nameLine ≠ "" →
      pyIsUpperStr (pyStrip nameLine) = true →
      collectUppers body = ([], body) →
      (collectBody body [] []).2.2 = [] →
      thresholdOf (collectBody body [] []).1 = some n →
      parsePsychicPowers text page source = .ok [{
        name := normaliseName [pyStrip nameLine]
        threshold := n
        focus_time := (lastKeyOccurrence "focus time" body).getD ""
        sustain := (lastKeyOccurrence "sustain" body).getD ""
        range := (lastKeyOccurrence "range" body).getD ""
        description := joinDescription (collectBody body [] []).2.1
        page := page
        source := source }]) :=
  ⟨collectBody_lastKey, psychic_single_block⟩

/-- C4 amended, witness: a block whose `focus time` key occurs twice with
different casings ("FOCUS TIME:" then "Focus Time:") records the value of
the last occurrence, and the dictionary-level conjunct evaluates on a
block with a duplicated `range` key. -/
theorem claim_C4_amended_witness :
    getKey (collectBody ["Range: 10m", "filler text", "Range: 20m"]
      [("threshold", "5")] []).1 "range" = some "20m" ∧
    parsePsychicPowers
      "VISIONS\nThreshold: 7\nFOCUS TIME: Half Action\nSustain: Yes\nfiller text\nFocus Time: Full Action\nRange: 20m"
      none none =
      .ok [{ name := "Visions", threshold := 7, focus_time := "Full Action",
             sustain := "Yes", range := "20m", description := "filler text",
             page := none, source := none }] := by
  constructor
  · have h := claim_C4_amended.1 ["Range: 10m", "filler text", "Range: 20m"]
      [("threshold", "5")] [] "range" (by decide)
    rw [h]
    decide
  · have h := claim_C4_amended.2
      "VISIONS\nThreshold: 7\nFOCUS TIME: Half Action\nSustain: Yes\nfiller text\nFocus Time: Full Action\nRange: 20m"
      "VISIONS"
      ["Threshold: 7", "FOCUS TIME: Half Action", "Sustain: Yes", "filler text",
       "Focus Time: Full Action", "Range: 20m"]
      none none 7 (by decide) (by decide) (by decide) (by decide) (by decide) (by decide)
    exact h

/-! ## Casing variants -/

/-- Two strings are casing variants when they agree character by character
up to letter case. -/
def casingVariant (a b : String) : Bool :=
  (a.data.length = b.data.length) &&
    (a.data.zip b.data).all (fun cc => cc.1.toLower = cc.2.toLower)

theorem lower_eq_of_variantL :
    ∀ (x y : List Char), x.length = y.length →
    (x.zip y).all (fun cc => cc.1.toLower = cc.2.toLower) = true →
    x.map Char.toLower = y.map Char.toLower := by
  intro x
  induction x with
  | nil =>
    intro y hl _
    cases y with
    | nil => rfl
    | cons c cs => simp at hl
  | cons c cs ih =>
    intro y hl ha
    cases y with
    | nil => simp at hl
    | cons d ds =>
      simp [List.zip_cons_cons, List.all_cons] at ha
      simp [List.map_cons, ha.1]
      exact ih ds (by simpa using hl) (by simpa using ha.2)

theorem pyLower_eq_of_variant {a b : String} (h : casingVariant a b = true) :
    pyLower a = pyLower b := by
  unfold casingVariant at h
  simp only [Bool.and_eq_true, decide_eq_true_eq] at h
  unfold pyLower
  rw [lower_eq_of_variantL a.data b.data h.1 h.2]

/-- C10: name resolution is case-insensitive.  A career registered with
`register_career` is found by `get_career` under any casing variant of its
name, and an advance of a career built by `Career.from_advances` (with
distinct lowered advance names) is found by `get_advance` under any casing
variant of its name. -/
theorem claim_C10_case_insensitive_resolution :
    (∀ (reg : List (String × Career)) (c : Career) (v : String),
      casingVariant v c.name = true →
      getCareer (registerCareer reg c) v = .ok c) ∧
    (∀ (n : String) (advs : List Advance) (a : Advance) (v : String),
      (advs.map (fun x => pyLower x.name)).Nodup → a ∈ advs →
      casingVariant v a.name = true →
      (Career.from_advances n advs).get_advance v = .ok a) := by
  constructor
  · intro reg c v hv
    unfold getCareer registerCareer
    rw [pyLower_eq_of_variant hv, dictGet_dictSet_same]
  · intro n advs a v hnd ha hv
    unfold Career.get_advance Career.from_advances
    rw [pyLower_eq_of_variant hv]
    rw [dictGet_fromAdvances advs [] a ha hnd]

/-- C10 witness: the registered "Soldier" career resolves under "SOLDIER",
and its "Shield Wall" advance resolves under "shield WALL". -/
theorem claim_C10_case_insensitive_resolution_witness :
    getCareer (registerCareer [] soldierCareer) "SOLDIER" = .ok soldierCareer ∧
    soldierCareer.get_advance "shield WALL" =
      .ok { name := "Shield Wall", xp_cost := 150, page := 47,
            prerequisites := ["Basic Training"] } := by
  constructor
  · exact claim_C10_case_insensitive_resolution.1 [] soldierCareer "SOLDIER" (by decide)
  · exact claim_C10_case_insensitive_resolution.2 "Soldier"
      [{ name := "Basic Training", xp_cost := 100, page := 45, prerequisites := [] },
       { name := "Shield Wall", xp_cost := 150, page := 47, prerequisites := ["Basic Training"] },
       { name := "Battlefield Commander", xp_cost := 300, page := 52,
         prerequisites := ["Shield Wall"] }]
      { name := "Shield Wall", xp_cost := 150, page := 47, prerequisites := ["Basic Training"] }
      "shield WALL" (by decide) (by decide) (by decide)

/-- C5: the code has no repeat-limit support at all.  `Advance` carries no
`max_purchases` field, and the very second purchase of the same advance is
rejected by `_validate_purchase`'s duplicate check, so a repeatable advance
can never reach two persisted purchases, contradicting the claim (and the
repository's own test `test_repeatable_advance_respects_purchase_limit`). -/
theorem claim_C5_second_purchase_rejected :
    ∃ (c1 : Character) (p : AdvancePurchase),
      Character.purchase_advance
        { name := "Cassia"
          career := Career.from_advances "Guardsman"
            [{ name := "Sound Constitution", xp_cost := 100, page := 120,
               prerequisites := [] }]
          xp_total := 400
          purchases := [] } "Sound Constitution" none = .ok (c1, p) ∧
      c1.purchases.length = 1 ∧
      c1.purchase_advance "Sound Constitution" none =
        .error (.prereqError "Advance has already been purchased.") := by
  refine ⟨_, _, rfl, ?_, ?_⟩
  · rfl
  · rfl

/-- C8: `character_from_dict` checks prerequisites only; it performs no
duplicate or repeat-limit validation, so a payload containing the same
advance twice loads successfully with both purchases persisted,
contradicting the claim (and the repository's own test
`test_character_from_dict_rejects_excess_repeat_purchases`). -/
theorem claim_C8_load_accepts_repeat_purchases :
    ∃ c : Character,
      characterFromDict (registerCareer [] soldierCareer)
        { name := "Rook", career := "Soldier", xp_total := 200,
          purchases := [{ name := "Basic Training", xp_cost := 100, page := 45 },
                        { name := "Basic Training", xp_cost := 100, page := 45 }] } = .ok c ∧
      c.purchases.length = 2 := by
  refine ⟨_, rfl, ?_⟩
  rfl

/-- C6 counterexample: `parse_divination_table` accepts the descending
range token "9–3" and emits an entry with `roll_min = 9 > 3 = roll_max`,
refuting the invariant for every accepted input. -/
theorem claim_C6_counterexample :
    ∃ e : DivinationResultEntry,
      parseDivinationTable "Table 1: Divination\n9–3 Doom." none none = .ok [e] ∧
      e.roll_min > e.roll_max := by
  refine ⟨⟨9, 3, "Doom", "", none, none⟩, ?_, by decide⟩
  rfl

/-- C6 amended: every `DivinationResultEntry` produced by
`parse_divination_table` satisfies `roll_min ≤ roll_max` provided every
line whose leading roll-range token matches the row pattern carries a
non-descending range (single numbers always do); the parser itself does not
reject descending "a–b" tokens. -/
theorem claim_C6_amended (text : String) (page : Option Int) (source : Option String)
    (h : ∀ l ∈ divLines text, rowRangeSane l = true) :
    ∀ es, parseDivinationTable text page source = .ok es →
      ∀ e ∈ es, e.roll_min ≤ e.roll_max := by
  intro es hok e he
  unfold parseDivinationTable at hok
  split at hok
  · exact Except.noConfusion hok
  next st heq =>
    have hst : divOk st := by
      refine divinationFold_ok (divLines text) _ st h ⟨?_, ?_⟩ heq
      · intro x hx
        exact absurd hx (List.not_mem_nil x)
      · intro r hr
        exact Option.noConfusion hr
    split at hok
    · exact Except.noConfusion hok
    · injection hok with hok
      subst hok
      exact divFlush_ok hst e he

/-- C6 amended, witness: a well-formed two-row divination table satisfies
the hypothesis and both produced entries have non-descending ranges. -/
theorem claim_C6_amended_witness :
    (∀ l ∈ divLines "Table 1–18: Imperial Divination\n1 \"Be vigilant.\" Gain a bonus.\n2–3 Another effect here.",
      rowRangeSane l = true) ∧
    (∀ es, parseDivinationTable
        "Table 1–18: Imperial Divination\n1 \"Be vigilant.\" Gain a bonus.\n2–3 Another effect here."
        none none = .ok es →
      ∀ e ∈ es, e.roll_min ≤ e.roll_max) := by
  constructor
  · decide
  · exact claim_C6_amended
      "Table 1–18: Imperial Divination\n1 \"Be vigilant.\" Gain a bonus.\n2–3 Another effect here."
      none none (by decide)

/-- C1: `parse_talent_table` on the exact input
`"Talent Name Prerequisite Benefit\nAir Of Authority Fel 30 Affect more targets."`
returns a single `TalentEntry` named "Air Of Authority" with prerequisites
`["Fel 30"]` and a description starting with "Affect more targets". -/
theorem claim_C1_parse_talent_table_air_of_authority :
    ∃ e : TalentEntry,
      parseTalentTable
        "Talent Name Prerequisite Benefit\nAir Of Authority Fel 30 Affect more targets."
        none none = .ok [e] ∧
      e.name = "Air Of Authority" ∧
      e.prerequisites = ["Fel 30"] ∧
      pyStartsWith e.description "Affect more targets" = true := by
  refine ⟨⟨"Air Of Authority", ["Fel 30"], "Affect more targets.", none, none⟩,
    ?_, rfl, rfl, ?_⟩
  · rfl
  · rfl

/-- C7 counterexample: on an input containing no talent-table header line at
all, `parse_talent_table` succeeds (returning the row's entry) instead of
raising `ParseError`, refuting "for every input in which no header is found
it raises ParseError even if some lines would otherwise split into valid
rows". -/
theorem claim_C7_counterexample :
    ((tableLines "Air Of Authority Fel 30 Affect more targets.").all
      (fun l => ¬ matchTalentHeader (pyLower l)) = true) ∧
    parseTalentTable "Air Of Authority Fel 30 Affect more targets." none none =
      .ok [⟨"Air Of Authority", ["Fel 30"], "Affect more targets.", none, none⟩] := by
  constructor
  · decide
  · rfl

/-- C7 amended: `parse_talent_table` raises `ParseError` exactly when
buffered row content remains unconsumed at the end or zero entries result.
A missing "Talent Name" header alone never causes failure: the first line
not starting with "table" is treated as the end of the header region, so
`header_found` can only remain false when no line was processed at all, in
which case zero entries result. -/
theorem claim_C7_amended (text : String) (page : Option Int) (source : Option String) :
    (∃ e, parseTalentTable text page source = .error e) ↔
      ((talentTableState text page source).buffer ≠ [] ∨
       (talentTableState text page source).entries = []) := by
  by_cases hb : (talentTableState text page source).buffer = []
  · by_cases hh : (talentTableState text page source).headerFound = true
    · by_cases he : (talentTableState text page source).entries = []
      · simp [parseTalentTable, List.isEmpty_iff, hb, hh, he]
      · simp [parseTalentTable, List.isEmpty_iff, hb, hh, he]
    · have h3 := talentTableState_header_false (by simpa using hh)
      simp [parseTalentTable, List.isEmpty_iff, hb, h3.1]
  · simp [parseTalentTable, List.isEmpty_iff, hb]

/-- C7 amended, witness: a malformed trailing row leaves buffered content
and the parser raises, as the amended claim requires. -/
theorem claim_C7_amended_witness :
    (∃ e, parseTalentTable "Talent Name Prerequisite Benefit\nOnly A Fragment" none none
        = .error e) ↔
      ((talentTableState "Talent Name Prerequisite Benefit\nOnly A Fragment" none none).buffer ≠ [] ∨
       (talentTableState "Talent Name Prerequisite Benefit\nOnly A Fragment" none none).entries = []) :=
  claim_C7_amended "Talent Name Prerequisite Benefit\nOnly A Fragment" none none

end TT
